import Mathlib

/-!
Verification of the badminton round-robin scheduling engine
(`backend/src/scheduler.ts`).

The engine is embedded shallowly: JavaScript `Set` insertion-order semantics
become first-occurrence deduplicating folds over lists, `Map`s become
association lists, JS numbers become `Int` (all score arithmetic is integral)
except the rest average, which is an exact rational (for team sizes 2 and 4
the JS float average and its differences are dyadic rationals, and the only
comparison is against the non-representable constant 0.3, so the rational
semantics coincides with the float semantics), and the injected UUID
generator becomes a counter threaded through the computation, producing a
fresh natural number per generated match.
-/

namespace Badminton

abbrev Player := String

abbrev Team := List Player

inductive MatchType
  | singles
  | doubles
deriving DecidableEq, Repr

structure MatchObj where
  id : Nat
  teamA : Team
  teamB : Team
deriving DecidableEq, Repr

structure Round where
  id : String
  matches' : List MatchObj
  resting : List Player
  completed : Bool
deriving DecidableEq, Repr

structure PlayerStats where
  playCount : Nat
  restCount : Nat
  lastPlayedRound : Int
deriving DecidableEq, Repr

/-- Insertion-order set insertion: `Set.add` keeps the first occurrence. -/
def insertSeen (acc : List Player) (p : Player) : List Player :=
  if p ∈ acc then acc else acc ++ [p]

/-- Embeds `Array.from(new Set(xs))`: deduplicate keeping first occurrences. -/
def dedupFirst (xs : List Player) : List Player :=
  xs.foldl insertSeen []

/-- Source `teamsOverlap`: does any player of `teamB` occur in `teamA`? -/
def teamsOverlap (teamA teamB : Team) : Bool :=
  teamB.any (fun player => teamA.contains player)

/-- All unordered pairs of players, in enumeration order `i < j`. -/
def pairTeams : List Player → List Team
  | [] => []
  | p :: ps => ps.map (fun q => [p, q]) ++ pairTeams ps

/-- Source `generateTeams`: singles gives singleton teams, doubles all pairs. -/
def generateTeams (players : List Player) (matchType : MatchType) : List Team :=
  match matchType with
  | .singles => players.map (fun p => [p])
  | .doubles => pairTeams players

/-- Matches of a fixed first team `t` against each later team, threading the
id counter; ids are drawn only for non-overlapping pairs. -/
def genMatchesFrom (t : Team) : List Team → Nat → List MatchObj × Nat
  | [], n => ([], n)
  | u :: us, n =>
    if teamsOverlap t u then genMatchesFrom t us n
    else
      let rest := genMatchesFrom t us (n + 1)
      (⟨n, t, u⟩ :: rest.1, rest.2)

/-- Source `generateAllMatches`: every unordered pair of disjoint teams, each with a
fresh id from the threaded counter. -/
def generateAllMatches : List Team → Nat → List MatchObj × Nat
  | [], n => ([], n)
  | t :: ts, n =>
    let first := genMatchesFrom t ts n
    let rest := generateAllMatches ts first.2
    (first.1 ++ rest.1, rest.2)

/-- Source `getMatchPlayers`: `new Set([...teamA, ...teamB])` in insertion order. -/
def getMatchPlayers (m : MatchObj) : List Player :=
  dedupFirst (m.teamA ++ m.teamB)

/-- JS code-unit lexicographic `<` on character lists. -/
def charListLt : List Char → List Char → Bool
  | [], [] => false
  | [], _ :: _ => true
  | _ :: _, [] => false
  | a :: as, b :: bs =>
    if a.toNat < b.toNat then true
    else if b.toNat < a.toNat then false
    else charListLt as bs

/-- JS string comparison `s < t` (UTF-16 code units; the rosters in scope
are ASCII, where code-unit and code-point order agree). -/
def strLt (s t : String) : Bool := charListLt s.data t.data

/-- Insert a string into an ascending list (JS default sort comparator). -/
def insertSorted (s : String) : List String → List String
  | [] => [s]
  | t :: ts => if !strLt t s then s :: t :: ts else t :: insertSorted s ts

/-- Embeds `[...team].sort()` for a list of player names. -/
def sortStrings (l : List String) : List String :=
  l.foldr insertSorted []

/-- Source `getTeamKey`: canonical key, sorted names joined with commas. -/
def getTeamKey (team : Team) : String :=
  String.intercalate "," (sortStrings team)

/-- Source `getMatchTeams`: the two canonical team keys of a match. -/
def getMatchTeams (m : MatchObj) : String × String :=
  (getTeamKey m.teamA, getTeamKey m.teamB)

/-- Association-list maps standing in for JS `Map`. -/
abbrev StatsMap := List (Player × PlayerStats)

abbrev NatMap := List (String × Nat)

abbrev IntMap := List (String × Int)

/-- Embeds `Map.set`: replace the binding if present, else append. -/
def alSet {β : Type} (m : List (String × β)) (k : String) (v : β) :
    List (String × β) :=
  if m.any (fun e => e.1 == k) then
    m.map (fun e => if e.1 == k then (k, v) else e)
  else m ++ [(k, v)]

/-- Embeds `playerStats.get(p)?.lastPlayedRound ?? d`. -/
def lastPlayedOr (playerStats : StatsMap) (d : Int) (p : Player) : Int :=
  ((playerStats.lookup p).map (fun s => s.lastPlayedRound)).getD d

/-- Embeds `playerStats.get(p)!` (the key is always present in the engine). -/
def statsOf (playerStats : StatsMap) (p : Player) : PlayerStats :=
  (playerStats.lookup p).getD ⟨0, 0, -1⟩

/-- Embeds `Math.max` over a list (never applied to the empty list). -/
def listMaxInt : List Int → Int
  | [] => 0
  | x :: xs => xs.foldl max x

/-- Embeds `Math.min` over a list (never applied to the empty list). -/
def listMinInt : List Int → Int
  | [] => 0
  | x :: xs => xs.foldl min x

/-- Embeds the JS numeric coalescing `x || d`: an absent entry yields `d`,
and a stored `0` is falsy, so it yields `d` as well (any other stored
number, including `-10`, is kept). -/
def falsyOr (o : Option Int) (d : Int) : Int :=
  match o with
  | none => d
  | some v => if v = 0 then d else v

/-- Source `calculateTeamFreshnessScore`: usage-dominated score with recency
penalties; lower is fresher. The last-used lookups are
`teamLastUsedRound.get(k) || -10`, so a team whose stored last-used round
is `0` is scored as never used (`falsyOr`); the usage lookups are
`teamUsageCount.get(k) || 0`, where the falsy case `0` coincides with the
default, so `getD 0` is exact. -/
def calculateTeamFreshnessScore (m : MatchObj) (teamUsageCount : NatMap)
    (teamLastUsedRound : IntMap) (currentRound : Int) : Int :=
  let teamAKey := (getMatchTeams m).1
  let teamBKey := (getMatchTeams m).2
  let teamAUsage : Int := ((teamUsageCount.lookup teamAKey).getD 0 : Nat)
  let teamBUsage : Int := ((teamUsageCount.lookup teamBKey).getD 0 : Nat)
  let totalUsage := teamAUsage + teamBUsage
  let teamALastRound := falsyOr (teamLastUsedRound.lookup teamAKey) (-10)
  let teamBLastRound := falsyOr (teamLastUsedRound.lookup teamBKey) (-10)
  let roundsSinceA := currentRound - teamALastRound
  let roundsSinceB := currentRound - teamBLastRound
  let recencyPenalty : Int :=
    (if roundsSinceA ≤ 1 then 100 else if roundsSinceA ≤ 2 then 50 else 0) +
      (if roundsSinceB ≤ 1 then 100 else if roundsSinceB ≤ 2 then 50 else 0)
  totalUsage * 100 + recencyPenalty + (10 - min roundsSinceA roundsSinceB)

/-- One scored candidate of `selectRoundMatches`. The JS float
`avgRest = restSum / players.size` is carried as the exact fraction
`avgRestNum / avgRestDen` (team sizes are 2 or 4, so the float value, and
every difference of two such values, is an exactly represented dyadic
rational; the only comparison made against it is with the constant `0.3`,
whose float image also lies strictly between the neighbouring quarters, so
exact-rational comparison coincides with the float comparison). -/
structure Candidate where
  mtch : MatchObj
  players : List Player
  avgRestNum : Int
  avgRestDen : Int
  roundsSincePlay : Int
  freshnessScore : Int
deriving DecidableEq, Repr

/-- The rational value of the carried average rest. -/
def Candidate.avgRest (c : Candidate) : ℚ :=
  (c.avgRestNum : ℚ) / (c.avgRestDen : ℚ)

/-- The candidate record built for each available match. -/
def mkCandidate (playerStats : StatsMap) (teamUsageCount : NatMap)
    (teamLastUsedRound : IntMap) (currentRound : Int) (m : MatchObj) :
    Candidate :=
  let players := getMatchPlayers m
  let restSum : Nat := players.foldl
    (fun sum p => sum + ((playerStats.lookup p).map (fun s => s.restCount)).getD 0) 0
  let lastPlayedMax := listMaxInt (players.map (lastPlayedOr playerStats (-1)))
  let roundsSincePlay := currentRound - lastPlayedMax
  let freshnessScore :=
    calculateTeamFreshnessScore m teamUsageCount teamLastUsedRound currentRound
  ⟨m, players, (restSum : Int), (players.length : Int), roundsSincePlay,
    freshnessScore⟩

/-- Longest-waiting player of a match: `max (r − lastPlayedRound)`, with the
`?? −10` default of the comparator and packing passes. -/
def maxRoundsSince (playerStats : StatsMap) (currentRound : Int)
    (players : List Player) : Int :=
  listMaxInt (players.map (fun p => currentRound - lastPlayedOr playerStats (-10) p))

/-- Sum of waits of all players of a match. -/
def sumRoundsSince (playerStats : StatsMap) (currentRound : Int)
    (players : List Player) : Int :=
  players.foldl (fun sum p => sum + (currentRound - lastPlayedOr playerStats (-10) p)) 0

/-- Shortest wait among players of a match. -/
def minRoundsSince (playerStats : StatsMap) (currentRound : Int)
    (players : List Player) : Int :=
  listMinInt (players.map (fun p => currentRound - lastPlayedOr playerStats (-10) p))

/-- The threshold `maxConsecutiveRests`: 1 for at most 7 players, else 2. -/
def maxConsecutiveRestsOf (numPlayers : Nat) : Int :=
  if numPlayers ≤ 7 then 1 else 2

/-- The weighted-sum comparator of `selectRoundMatches` (negative means `a`
sorts before `b`). Early `return`s become an `if` chain; a guarded branch
returning only on a non-zero difference falls through otherwise, exactly as
in the source. -/
def compareCands (playerStats : StatsMap) (currentRound : Int)
    (a b : Candidate) : Int :=
  let maxRoundsSinceA := maxRoundsSince playerStats currentRound a.players
  let maxRoundsSinceB := maxRoundsSince playerStats currentRound b.players
  let numPlayers := playerStats.length
  let maxConsecutiveRests := maxConsecutiveRestsOf numPlayers
  if (maxRoundsSinceA ≥ maxConsecutiveRests ∨ maxRoundsSinceB ≥ maxConsecutiveRests) ∧
      maxRoundsSinceB - maxRoundsSinceA ≠ 0 then
    (maxRoundsSinceB - maxRoundsSinceA) * 100000
  else
    let urgencyThreshold := max 1 (maxConsecutiveRests - 1)
    if (maxRoundsSinceA ≥ urgencyThreshold ∨ maxRoundsSinceB ≥ urgencyThreshold) ∧
        maxRoundsSinceB - maxRoundsSinceA ≠ 0 then
      (maxRoundsSinceB - maxRoundsSinceA) * 10000
    else
      let sumRoundsSinceA := sumRoundsSince playerStats currentRound a.players
      let sumRoundsSinceB := sumRoundsSince playerStats currentRound b.players
      if sumRoundsSinceA ≠ sumRoundsSinceB then
        (sumRoundsSinceB - sumRoundsSinceA) * 100
      else
        let restDiffNum := b.avgRestNum * a.avgRestDen - a.avgRestNum * b.avgRestDen
        let restDiffDen := a.avgRestDen * b.avgRestDen
        if 10 * |restDiffNum| > 3 * restDiffDen then
          (if restDiffNum > 0 then 1 else -1) * 50
        else
          let minRoundsSinceA := minRoundsSince playerStats currentRound a.players
          let minRoundsSinceB := minRoundsSince playerStats currentRound b.players
          if minRoundsSinceA ≠ minRoundsSinceB then
            (minRoundsSinceB - minRoundsSinceA) * 10
          else
            a.freshnessScore - b.freshnessScore

/-- Stable insertion of a candidate into a comparator-sorted list: a later
element goes after every earlier element it does not strictly precede. -/
def insertCand (cmp : Candidate → Candidate → Int) (x : Candidate) :
    List Candidate → List Candidate
  | [] => [x]
  | y :: ys => if cmp x y < 0 then x :: y :: ys else y :: insertCand cmp x ys

/-- Embeds `Array.prototype.sort` (required stable by the language spec) as a stable
insertion sort. -/
def sortCands (cmp : Candidate → Candidate → Int) (l : List Candidate) :
    List Candidate :=
  l.foldl (fun acc x => insertCand cmp x acc) []

/-- First packing pass: walk the sorted candidates, keeping only matches with
a critical (wait ≥ threshold) player, skipping conflicts, stopping at
`courts`. -/
def forcedPass (courts : Int) (playerStats : StatsMap) (currentRound : Int)
    (maxConsecutiveRests : Int) :
    List Candidate → List MatchObj → List Player → List MatchObj × List Player
  | [], selected, used => (selected, used)
  | c :: cs, selected, used =>
    if (selected.length : Int) ≥ courts then (selected, used)
    else
      if maxRoundsSince playerStats currentRound c.players ≥ maxConsecutiveRests then
        if c.players.any (fun p => used.contains p) then
          forcedPass courts playerStats currentRound maxConsecutiveRests cs selected used
        else
          forcedPass courts playerStats currentRound maxConsecutiveRests cs
            (selected ++ [c.mtch]) (used ++ c.players)
      else forcedPass courts playerStats currentRound maxConsecutiveRests cs selected used

/-- Second packing pass: fill remaining court slots with any non-conflicting
candidate not already selected. -/
def fillPass (courts : Int) :
    List Candidate → List MatchObj → List Player → List MatchObj × List Player
  | [], selected, used => (selected, used)
  | c :: cs, selected, used =>
    if (selected.length : Int) ≥ courts then (selected, used)
    else if selected.any (fun m => m = c.mtch) then
      fillPass courts cs selected used
    else if c.players.any (fun p => used.contains p) then
      fillPass courts cs selected used
    else fillPass courts cs (selected ++ [c.mtch]) (used ++ c.players)

/-- Source `selectRoundMatches`: score, sort, then two-pass packing. -/
def selectRoundMatches (availableMatches : List MatchObj) (courts : Int)
    (playerStats : StatsMap) (teamUsageCount : NatMap)
    (teamLastUsedRound : IntMap) (currentRound : Int) : List MatchObj :=
  if availableMatches.isEmpty || courts == 0 then []
  else
    let candidates := availableMatches.map
      (mkCandidate playerStats teamUsageCount teamLastUsedRound currentRound)
    let sorted := sortCands (compareCands playerStats currentRound) candidates
    let maxConsecutiveRests := maxConsecutiveRestsOf playerStats.length
    let pA := forcedPass courts playerStats currentRound maxConsecutiveRests sorted [] []
    let pB := fillPass courts sorted pA.1 pA.2
    pB.1

/-- The urgency-repair walk over the freshly re-enumerated match list: append
matches containing a missing urgent player, respecting disjointness, until
the courts are full. -/
def repairPass (courts : Int) (missingUrgent : List Player) :
    List MatchObj → List MatchObj → List Player → List MatchObj × List Player
  | [], roundMatches, playing => (roundMatches, playing)
  | m :: ms, roundMatches, playing =>
    if (roundMatches.length : Int) ≥ courts then (roundMatches, playing)
    else
      if !(getMatchPlayers m).any (fun p => missingUrgent.contains p) then
        repairPass courts missingUrgent ms roundMatches playing
      else if (getMatchPlayers m).any (fun p => playing.contains p) then
        repairPass courts missingUrgent ms roundMatches playing
      else
        repairPass courts missingUrgent ms (roundMatches ++ [m])
          (playing ++ getMatchPlayers m)

/-- Source `playingPlayers`: insertion-order set of all players of the given
matches. -/
def unionPlayers (ms : List MatchObj) : List Player :=
  ms.foldl (fun acc m => (getMatchPlayers m).foldl insertSeen acc) []

/-- End-of-round update of the per-player statistics map. -/
def updatePlayerStats (stats : StatsMap) (playing : List Player)
    (roundNumber : Nat) : StatsMap :=
  stats.map (fun e =>
    if playing.contains e.1 then
      (e.1, { e.2 with playCount := e.2.playCount + 1,
                       lastPlayedRound := (roundNumber : Int) })
    else
      (e.1, { e.2 with restCount := e.2.restCount + 1 }))

/-- End-of-round update of the team usage and recency maps. -/
def updateTeamMaps (teamUsageCount : NatMap) (teamLastUsedRound : IntMap)
    (roundNumber : Nat) : List MatchObj → NatMap × IntMap
  | [] => (teamUsageCount, teamLastUsedRound)
  | m :: ms =>
    let kA := (getMatchTeams m).1
    let kB := (getMatchTeams m).2
    let tu1 := alSet teamUsageCount kA ((teamUsageCount.lookup kA).getD 0 + 1)
    let tu2 := alSet tu1 kB ((tu1.lookup kB).getD 0 + 1)
    let tl1 := alSet teamLastUsedRound kA (roundNumber : Int)
    let tl2 := alSet tl1 kB (roundNumber : Int)
    updateTeamMaps tu2 tl2 roundNumber ms

/-- Mutable state of the scheduling loop. -/
structure SchedState where
  remaining : List MatchObj
  playerStats : StatsMap
  teamUsageCount : NatMap
  teamLastUsedRound : IntMap
  rounds : List Round
  roundNumber : Nat
  nextId : Nat
deriving Repr

/-- Is some player urgent at the top of the iteration? -/
def hasUrgentPlayer (players : List Player) (stats : StatsMap)
    (roundNumber : Nat) (T : Int) : Bool :=
  players.any (fun p =>
    (roundNumber : Int) - (statsOf stats p).lastPlayedRound ≥ T)

/-- The urgent players at the top of the iteration. -/
def urgentList (players : List Player) (stats : StatsMap)
    (roundNumber : Nat) (T : Int) : List Player :=
  players.filter (fun p =>
    (roundNumber : Int) - (statsOf stats p).lastPlayedRound ≥ T)

/-- Does some remaining match contain an urgent player? -/
def canScheduleUrgent (remaining : List MatchObj) (urgent : List Player) :
    Bool :=
  remaining.any (fun m => (getMatchPlayers m).any (fun p => urgent.contains p))

/-- The safety-gate condition at the top of a loop iteration: an urgent
player exists and no remaining match contains any urgent player. -/
def gateTriggers (players : List Player) (T : Int) (s : SchedState) : Bool :=
  hasUrgentPlayer players s.playerStats s.roundNumber T &&
    !canScheduleUrgent s.remaining
      (urgentList players s.playerStats s.roundNumber T)

/-- The base selection of a loop iteration (`selectRoundMatches` applied to
the current state). -/
def baseSelect (courts : Int) (s : SchedState) : List MatchObj :=
  selectRoundMatches s.remaining courts s.playerStats s.teamUsageCount
    s.teamLastUsedRound (s.roundNumber : Int)

/-- The urgent players still missing from the selection. -/
def missingUrgentOf (players : List Player) (T : Int) (s : SchedState)
    (roundMatches : List MatchObj) : List Player :=
  (urgentList players s.playerStats s.roundNumber T).filter
    (fun p => !(unionPlayers roundMatches).contains p)

/-- Round selection including the urgency-repair pass; returns the round's
matches and the id counter after any repair re-enumeration. -/
def selectWithRepair (players : List Player) (courts : Int)
    (matchType : MatchType) (T : Int) (s : SchedState) :
    List MatchObj × Nat :=
  if hasUrgentPlayer players s.playerStats s.roundNumber T then
    if !(missingUrgentOf players T s (baseSelect courts s)).isEmpty &&
        ((baseSelect courts s).length : Int) < courts then
      ((repairPass courts (missingUrgentOf players T s (baseSelect courts s))
          (generateAllMatches (generateTeams players matchType) s.nextId).1
          (baseSelect courts s) (unionPlayers (baseSelect courts s))).1,
        (generateAllMatches (generateTeams players matchType) s.nextId).2)
    else (baseSelect courts s, s.nextId)
  else (baseSelect courts s, s.nextId)

/-- Commit a non-empty selection as round `roundNumber + 1`. -/
def commitRound (players : List Player) (s : SchedState)
    (roundMatches : List MatchObj) (nextId : Nat) : SchedState :=
  let playing := unionPlayers roundMatches
  let resting := players.filter (fun p => !playing.contains p)
  let stats' := updatePlayerStats s.playerStats playing s.roundNumber
  let tt := updateTeamMaps s.teamUsageCount s.teamLastUsedRound s.roundNumber
    roundMatches
  let round : Round :=
    ⟨"r" ++ toString (s.roundNumber + 1), roundMatches, resting, false⟩
  let remaining' := s.remaining.filter
    (fun m => !roundMatches.any (fun x => x.id == m.id))
  ⟨remaining', stats', tt.1, tt.2, s.rounds ++ [round], s.roundNumber + 1,
    nextId⟩

/-- The main scheduling loop; the fuel is `maxIterations − roundNumber`, so
fuel exhaustion is exactly the `roundNumber < 1000` guard of the source. -/
def schedLoop (players : List Player) (courts : Int) (matchType : MatchType)
    (T : Int) : Nat → SchedState → SchedState
  | 0, s => s
  | fuel + 1, s =>
    if s.remaining.isEmpty then s
    else if gateTriggers players T s then s
    else if (selectWithRepair players courts matchType T s).1.isEmpty then s
    else
      schedLoop players courts matchType T fuel
        (commitRound players s (selectWithRepair players courts matchType T s).1
          (selectWithRepair players courts matchType T s).2)

/-- The `maxIterations` constant of the source. -/
def maxIterations : Nat := 1000

/-- The body of `generateSchedule` after validation (this part of the source
cannot fail). -/
def runSchedule (players : List Player) (courts : Int)
    (matchType : MatchType) : List Round × Option String :=
  let warning : Option String :=
    if players.length > 16 then some "large_n; fallback_to_greedy" else none
  let teams := generateTeams players matchType
  let gen := generateAllMatches teams 0
  let playerStats : StatsMap := players.map (fun p => (p, ⟨0, 0, -1⟩))
  let teamUsageCount : NatMap :=
    teams.foldl (fun acc t => alSet acc (getTeamKey t) 0) []
  let teamLastUsedRound : IntMap :=
    teams.foldl (fun acc t => alSet acc (getTeamKey t) (-10)) []
  let T := maxConsecutiveRestsOf players.length
  let final := schedLoop players courts matchType T maxIterations
    ⟨gen.1, playerStats, teamUsageCount, teamLastUsedRound, [], 0, gen.2⟩
  (final.rounds, warning)

/-- Source `generateSchedule`: deduplicate, validate, then run the scheduling
loop. Thrown `Error`s become `Except.error` with the thrown message. -/
def generateSchedule (inputPlayers : List Player) (courts : Int)
    (matchType : MatchType) : Except String (List Round × Option String) :=
  let uniquePlayers := dedupFirst inputPlayers
  if uniquePlayers.length < inputPlayers.length ∧ uniquePlayers.length < 5 then
    .error ("After removing " ++ toString (inputPlayers.length - uniquePlayers.length) ++
      " duplicate(s), only " ++ toString uniquePlayers.length ++
      " unique players remain. Minimum 5 required.")
  else if uniquePlayers.length < 5 then
    .error "At least 5 unique players required"
  else if courts < 1 then
    .error "At least 1 court required"
  else
    .ok (runSchedule uniquePlayers courts matchType)

/-! ### Observation helpers used by the verified properties -/

/-- The rounds of a scheduling result (none on a validation error). -/
def scheduleRounds (r : Except String (List Round × Option String)) :
    List Round :=
  match r with
  | .ok out => out.1
  | .error _ => []

/-- Did `generateSchedule` return a schedule (rather than throw)? -/
def scheduleOk (r : Except String (List Round × Option String)) : Bool :=
  match r with
  | .ok _ => true
  | .error _ => false

/-- The longest run of consecutive rounds in which `p` rests. -/
def maxRestRun (rounds : List Round) (p : Player) : Nat :=
  (rounds.foldl (fun acc r =>
    let cur := if r.resting.contains p then acc.1 + 1 else 0
    (cur, max acc.2 cur)) ((0 : Nat), (0 : Nat))).2

/-- All match ids of a schedule, in order. -/
def allMatchIds (rounds : List Round) : List Nat :=
  rounds.flatMap (fun r => r.matches'.map MatchObj.id)

/-- The logical identity of a match: its players, canonically sorted (two
matches are the same logical match iff their keys agree). -/
def logicalKey (m : MatchObj) : List Player :=
  sortStrings (m.teamA ++ m.teamB)

/-- Two matches share no player. -/
def PlayersDisjoint (m m' : MatchObj) : Prop :=
  ∀ p, p ∈ getMatchPlayers m → p ∉ getMatchPlayers m'

/-- The initial state of the scheduling loop. -/
def initState (players : List Player) (mt : MatchType) : SchedState :=
  ⟨(generateAllMatches (generateTeams players mt) 0).1,
    players.map (fun p => (p, ⟨0, 0, -1⟩)),
    (generateTeams players mt).foldl (fun acc t => alSet acc (getTeamKey t) 0) [],
    (generateTeams players mt).foldl
      (fun acc t => alSet acc (getTeamKey t) (-10)) [],
    [], 0, (generateAllMatches (generateTeams players mt) 0).2⟩

/-! ### Fresh ids from the enumerator -/

/-- The ids of a list of matches. -/
def idsOf (ms : List MatchObj) : List Nat :=
  ms.map MatchObj.id

/-! ### C6 — the weighted-sum comparator realises the spec's priority
vector -/

/-- Descending comparison: the larger value sorts earlier. -/
def descOrd (x y : Int) : Ordering :=
  if y < x then .lt else if x < y then .gt else .eq

/-- Ascending comparison: the smaller value sorts earlier. -/
def ascOrd (x y : Int) : Ordering :=
  if x < y then .lt else if y < x then .gt else .eq

/-- Descending comparison on rationals. -/
def descOrdQ (x y : ℚ) : Ordering :=
  if y < x then .lt else if x < y then .gt else .eq

/-- First non-`eq` comparator of a priority list. -/
def firstNe : List Ordering → Ordering
  | [] => .eq
  | o :: os => match o with
    | .eq => firstNe os
    | o => o

/-- Modelled from the spec (§4.4 ordering rule): sort ascending by the
first non-zero of (1) `max_wait` descending when either `max_wait ≥ T`,
(2) else `max_wait` descending when either `max_wait ≥ U = max(1, T−1)`,
(3) `sum_wait` descending, (4) `avg_rest` descending only when the
difference exceeds 0.3, (5) `min_wait` descending, (6) `freshness`
ascending. -/
def specPriorityOrder (T : Int) (maxA sumA : Int) (avgA : ℚ)
    (minA fA : Int) (maxB sumB : Int) (avgB : ℚ) (minB fB : Int) :
    Ordering :=
  firstNe
    [if maxA ≥ T ∨ maxB ≥ T then descOrd maxA maxB else .eq,
      if maxA ≥ max 1 (T - 1) ∨ maxB ≥ max 1 (T - 1) then
        descOrd maxA maxB else .eq,
      descOrd sumA sumB,
      if |avgA - avgB| > 3 / 10 then descOrdQ avgA avgB else .eq,
      descOrd minA minB,
      ascOrd fA fB]

/-- The sign denoted by an `Ordering` (`lt` ↦ −1, `eq` ↦ 0, `gt` ↦ 1). -/
def ordSign : Ordering → Int
  | .lt => -1
  | .eq => 0
  | .gt => 1

/-- The rational value of the average rest count of a match's players, as
carried by `mkCandidate`. -/
def avgRestQ (playerStats : StatsMap) (m : MatchObj) : ℚ :=
  ((((getMatchPlayers m).foldl (fun sum p =>
      sum + ((playerStats.lookup p).map (fun s => s.restCount)).getD 0)
      0 : Nat) : Int) : ℚ) /
    ((((getMatchPlayers m).length : Nat) : Int) : ℚ)

/-- Modelled from the spec (§4.4.1): `since_k = r − last_used_round[k]`,
with the −10 sentinel for a team never used. -/
def sinceOf (teamLastUsedRound : IntMap) (r : Int) (k : String) : Int :=
  r - (teamLastUsedRound.lookup k).getD (-10)

/-- Modelled from the spec (§4.4.1): +100 if `since ≤ 1`, else +50 if
`since ≤ 2`, else 0. -/
def recencyPenaltyOf (since : Int) : Int :=
  if since ≤ 1 then 100 else if since ≤ 2 then 50 else 0

/-- Modelled from the spec (§4.4.1, as quoted by the claim):
`freshness = (usage_a + usage_b)·100 + recency penalty per team +
(10 − min(since_a, since_b))`, with plain sentinel lookups for the
last-used rounds. -/
def specFreshness (m : MatchObj) (teamUsageCount : NatMap)
    (teamLastUsedRound : IntMap) (r : Int) : Int :=
  let a := getTeamKey m.teamA
  let b := getTeamKey m.teamB
  let usage : Int := ((teamUsageCount.lookup a).getD 0 : Nat) +
    ((teamUsageCount.lookup b).getD 0 : Nat)
  usage * 100 +
    (recencyPenaltyOf (sinceOf teamLastUsedRound r a) +
      recencyPenaltyOf (sinceOf teamLastUsedRound r b)) +
    (10 - min (sinceOf teamLastUsedRound r a) (sinceOf teamLastUsedRound r b))

/-- The amended freshness formula: as `specFreshness`, but the last-used
round of a team is read with the code's falsy coalescing `get(k) || −10`,
so a team whose stored last-used round is 0 counts as never used. -/
def sinceFalsyOf (teamLastUsedRound : IntMap) (r : Int) (k : String) : Int :=
  r - falsyOr (teamLastUsedRound.lookup k) (-10)

/-- The amended level-6 key: the spec's freshness formula over the
falsy-coalesced recency lookups, which is what the code computes. -/
def specFreshnessFalsy (m : MatchObj) (teamUsageCount : NatMap)
    (teamLastUsedRound : IntMap) (r : Int) : Int :=
  let a := getTeamKey m.teamA
  let b := getTeamKey m.teamB
  let usage : Int := ((teamUsageCount.lookup a).getD 0 : Nat) +
    ((teamUsageCount.lookup b).getD 0 : Nat)
  usage * 100 +
    (recencyPenaltyOf (sinceFalsyOf teamLastUsedRound r a) +
      recencyPenaltyOf (sinceFalsyOf teamLastUsedRound r b)) +
    (10 - min (sinceFalsyOf teamLastUsedRound r a)
      (sinceFalsyOf teamLastUsedRound r b))

/-- The statistics state of the freshness counterexample: players A, B, C,
D all last played round 1, each with one rest. -/
def cexStats : StatsMap :=
  [("A", ⟨1, 1, 1⟩), ("B", ⟨1, 1, 1⟩), ("C", ⟨1, 1, 1⟩), ("D", ⟨1, 1, 1⟩)]

/-- Team usage of the counterexample: A, B and C used once, D never. -/
def cexUsage : NatMap := [("A", 1), ("B", 1), ("C", 1), ("D", 0)]

/-- Last-used rounds of the counterexample: A and B last used in round 0
(the falsy stored value), C in round 1, D never. -/
def cexLast : IntMap := [("A", 0), ("B", 0), ("C", 1), ("D", -10)]

/-- Counterexample match A vs B (two round-0 teams). -/
def cexM1 : MatchObj := ⟨0, ["A"], ["B"]⟩

/-- Counterexample match C vs D (a round-1 team and a never-used team). -/
def cexM2 : MatchObj := ⟨1, ["C"], ["D"]⟩

/-- The first round of the canonical 5-player singles schedule. -/
def exampleRound : Round := ⟨"r1", [⟨0, ["A"], ["B"]⟩], ["C", "D", "E"], false⟩

/-- The canonical 5-player roster. -/
def exampleInput : List Player := ["A", "B", "C", "D", "E"]

/-! ### C1 — the consecutive-rest cap, and C8 — small-N coverage -/

/-- The schedule computed for the canonical 5-player, one-court singles
input. -/
def fiveSinglesRounds : List Round :=
  scheduleRounds (generateSchedule exampleInput 1 .singles)

/-- The logical keys of all matches of the 5-player singles schedule, in
order. -/
def scheduledKeys : List Team :=
  fiveSinglesRounds.flatMap (fun r => r.matches'.map logicalKey)

/-- The logical keys of all C(5,2) = 10 possible singles matches. -/
def allPairKeys : List Team :=
  (generateAllMatches (generateTeams exampleInput .singles) 0).1.map logicalKey

/-- A state on which the safety gate fires: player C is urgent (has waited
6 ≥ T = 2 rounds) and the only remaining match is A vs B. -/
def gateWitnessState : SchedState :=
  ⟨[⟨0, ["A"], ["B"]⟩],
    [("A", ⟨1, 0, 4⟩), ("B", ⟨1, 0, 4⟩), ("C", ⟨0, 5, -1⟩)],
    [], [], [], 5, 1⟩


/-! ### Deduplication -/

theorem mem_insertSeen (acc : List Player) (p q : Player) :
    q ∈ insertSeen acc p ↔ q ∈ acc ∨ q = p := by
  unfold insertSeen
  split
  · next h => constructor
              · exact fun hq => Or.inl hq
              · rintro (hq | rfl) <;> [exact hq; exact h]
  · simp

theorem insertSeen_nodup {acc : List Player} (h : acc.Nodup) (p : Player) :
    (insertSeen acc p).Nodup := by
  unfold insertSeen
  split
  · exact h
  · next hp => simpa [List.nodup_append] using ⟨h, by simpa using hp⟩

theorem foldl_insertSeen_nodup :
    ∀ (xs acc : List Player), acc.Nodup → (xs.foldl insertSeen acc).Nodup
  | [], _, h => h
  | _ :: xs, acc, h =>
    foldl_insertSeen_nodup xs _ (insertSeen_nodup h _)

theorem mem_foldl_insertSeen :
    ∀ (xs acc : List Player) (q : Player),
      q ∈ xs.foldl insertSeen acc ↔ q ∈ acc ∨ q ∈ xs
  | [], acc, q => by simp
  | x :: xs, acc, q => by
    rw [List.foldl_cons, mem_foldl_insertSeen xs _ q, mem_insertSeen]
    simp only [List.mem_cons]
    tauto

theorem foldl_insertSeen_append :
    ∀ (xs acc : List Player),
      ∃ ys, xs.foldl insertSeen acc = acc ++ ys ∧ ys.Sublist xs
  | [], acc => ⟨[], by simp⟩
  | x :: xs, acc => by
    rw [List.foldl_cons]
    unfold insertSeen
    split
    · obtain ⟨ys, hys, hsub⟩ := foldl_insertSeen_append xs acc
      exact ⟨ys, hys, hsub.cons x⟩
    · obtain ⟨ys, hys, hsub⟩ := foldl_insertSeen_append xs (acc ++ [x])
      exact ⟨x :: ys, by simpa using hys, hsub.cons₂ x⟩

theorem dedupFirst_nodup (xs : List Player) : (dedupFirst xs).Nodup :=
  foldl_insertSeen_nodup xs [] List.nodup_nil

theorem mem_dedupFirst (xs : List Player) (q : Player) :
    q ∈ dedupFirst xs ↔ q ∈ xs := by
  rw [dedupFirst, mem_foldl_insertSeen]
  simp

theorem dedupFirst_sublist (xs : List Player) : (dedupFirst xs).Sublist xs := by
  obtain ⟨ys, hys, hsub⟩ := foldl_insertSeen_append xs []
  rw [dedupFirst, hys]
  simpa using hsub

/-! ### Sorting is a permutation -/

theorem insertCand_perm (cmp : Candidate → Candidate → Int) (x : Candidate) :
    ∀ l : List Candidate, (insertCand cmp x l).Perm (x :: l)
  | [] => List.Perm.refl _
  | y :: ys => by
    unfold insertCand
    split
    · exact List.Perm.refl _
    · exact ((insertCand_perm cmp x ys).cons y).trans (List.Perm.swap x y ys)

theorem foldl_insertCand_perm (cmp : Candidate → Candidate → Int) :
    ∀ (l acc : List Candidate),
      (l.foldl (fun acc x => insertCand cmp x acc) acc).Perm (acc ++ l)
  | [], acc => by simp
  | x :: xs, acc => by
    rw [List.foldl_cons]
    refine (foldl_insertCand_perm cmp xs (insertCand cmp x acc)).trans ?_
    refine (((insertCand_perm cmp x acc).append_right xs).trans ?_)
    exact (List.perm_middle).symm

theorem sortCands_perm (cmp : Candidate → Candidate → Int)
    (l : List Candidate) : (sortCands cmp l).Perm l :=
  foldl_insertCand_perm cmp l []

theorem mem_sortCands {cmp : Candidate → Candidate → Int}
    {l : List Candidate} {c : Candidate} (h : c ∈ sortCands cmp l) : c ∈ l :=
  (sortCands_perm cmp l).mem_iff.mp h

theorem mkCandidate_players (playerStats : StatsMap) (tu : NatMap)
    (tl : IntMap) (r : Int) (m : MatchObj) :
    (mkCandidate playerStats tu tl r m).players = getMatchPlayers m := rfl

theorem mkCandidate_mtch (playerStats : StatsMap) (tu : NatMap) (tl : IntMap)
    (r : Int) (m : MatchObj) :
    (mkCandidate playerStats tu tl r m).mtch = m := rfl

/-! ### The union of a selection's players -/

theorem mem_unionPlayers_aux :
    ∀ (ms : List MatchObj) (acc : List Player) (q : Player),
      q ∈ ms.foldl (fun acc m => (getMatchPlayers m).foldl insertSeen acc) acc ↔
        q ∈ acc ∨ ∃ m ∈ ms, q ∈ getMatchPlayers m
  | [], acc, q => by simp
  | m :: ms, acc, q => by
    rw [List.foldl_cons, mem_unionPlayers_aux ms _ q, mem_foldl_insertSeen]
    simp only [List.mem_cons]
    constructor
    · rintro ((h | h) | ⟨m', hm', hq⟩)
      · exact Or.inl h
      · exact Or.inr ⟨m, Or.inl rfl, h⟩
      · exact Or.inr ⟨m', Or.inr hm', hq⟩
    · rintro (h | ⟨m', (rfl | hm'), hq⟩)
      · exact Or.inl (Or.inl h)
      · exact Or.inl (Or.inr hq)
      · exact Or.inr ⟨m', hm', hq⟩

theorem mem_unionPlayers (ms : List MatchObj) (q : Player) :
    q ∈ unionPlayers ms ↔ ∃ m ∈ ms, q ∈ getMatchPlayers m := by
  rw [unionPlayers, mem_unionPlayers_aux]
  simp

/-! ### Disjointness is preserved by the packing passes -/

theorem pairwise_push {sel : List MatchObj} {used : List Player}
    {mo : MatchObj}
    (hpw : List.Pairwise PlayersDisjoint sel)
    (hsub : ∀ m ∈ sel, ∀ p ∈ getMatchPlayers m, p ∈ used)
    (hconf : ∀ p ∈ getMatchPlayers mo, p ∉ used) :
    List.Pairwise PlayersDisjoint (sel ++ [mo]) := by
  rw [List.pairwise_append]
  refine ⟨hpw, List.pairwise_singleton _ _, ?_⟩
  intro m hm m' hm'
  rcases List.mem_singleton.mp hm' with rfl
  intro p hp hp'
  exact hconf p hp' (hsub m hm p hp)

theorem sub_push {sel : List MatchObj} {used : List Player} {mo : MatchObj}
    {pls : List Player}
    (hsub : ∀ m ∈ sel, ∀ p ∈ getMatchPlayers m, p ∈ used)
    (hpl : getMatchPlayers mo = pls) :
    ∀ m ∈ sel ++ [mo], ∀ p ∈ getMatchPlayers m, p ∈ used ++ pls := by
  intro m hm p hp
  rcases List.mem_append.mp hm with hm | hm
  · exact List.mem_append.mpr (Or.inl (hsub m hm p hp))
  · rcases List.mem_singleton.mp hm with rfl
    rw [hpl] at hp
    exact List.mem_append.mpr (Or.inr hp)

theorem forcedPass_selInv (courts : Int) (stats : StatsMap) (r T : Int) :
    ∀ (cands : List Candidate) (sel : List MatchObj) (used : List Player),
      (∀ c ∈ cands, c.players = getMatchPlayers c.mtch) →
      List.Pairwise PlayersDisjoint sel →
      (∀ m ∈ sel, ∀ p ∈ getMatchPlayers m, p ∈ used) →
      List.Pairwise PlayersDisjoint
          (forcedPass courts stats r T cands sel used).1 ∧
        ∀ m ∈ (forcedPass courts stats r T cands sel used).1,
          ∀ p ∈ getMatchPlayers m,
            p ∈ (forcedPass courts stats r T cands sel used).2
  | [], sel, used, _, hpw, hsub => ⟨hpw, hsub⟩
  | c :: cs, sel, used, hc, hpw, hsub => by
    have hctail : ∀ x ∈ cs, x.players = getMatchPlayers x.mtch :=
      fun x hx => hc x (List.mem_cons_of_mem c hx)
    have hchead : c.players = getMatchPlayers c.mtch := hc c (List.mem_cons_self c cs)
    unfold forcedPass
    split
    · exact ⟨hpw, hsub⟩
    · split
      · split
        · exact forcedPass_selInv courts stats r T cs sel used hctail hpw hsub
        · next hconf =>
          have hconf' : ∀ p ∈ getMatchPlayers c.mtch, p ∉ used := by
            rw [← hchead]
            simpa using hconf
          exact forcedPass_selInv courts stats r T cs _ _ hctail
            (pairwise_push hpw hsub hconf') (sub_push hsub hchead.symm)
      · exact forcedPass_selInv courts stats r T cs sel used hctail hpw hsub

theorem fillPass_selInv (courts : Int) :
    ∀ (cands : List Candidate) (sel : List MatchObj) (used : List Player),
      (∀ c ∈ cands, c.players = getMatchPlayers c.mtch) →
      List.Pairwise PlayersDisjoint sel →
      (∀ m ∈ sel, ∀ p ∈ getMatchPlayers m, p ∈ used) →
      List.Pairwise PlayersDisjoint (fillPass courts cands sel used).1 ∧
        ∀ m ∈ (fillPass courts cands sel used).1,
          ∀ p ∈ getMatchPlayers m, p ∈ (fillPass courts cands sel used).2
  | [], sel, used, _, hpw, hsub => ⟨hpw, hsub⟩
  | c :: cs, sel, used, hc, hpw, hsub => by
    have hctail : ∀ x ∈ cs, x.players = getMatchPlayers x.mtch :=
      fun x hx => hc x (List.mem_cons_of_mem c hx)
    have hchead : c.players = getMatchPlayers c.mtch := hc c (List.mem_cons_self c cs)
    unfold fillPass
    split
    · exact ⟨hpw, hsub⟩
    · split
      · exact fillPass_selInv courts cs sel used hctail hpw hsub
      · split
        · exact fillPass_selInv courts cs sel used hctail hpw hsub
        · next hconf =>
          have hconf' : ∀ p ∈ getMatchPlayers c.mtch, p ∉ used := by
            rw [← hchead]
            simpa using hconf
          exact fillPass_selInv courts cs _ _ hctail
            (pairwise_push hpw hsub hconf') (sub_push hsub hchead.symm)

theorem repairPass_selInv (courts : Int) (missing : List Player) :
    ∀ (pool rm : List MatchObj) (playing : List Player),
      List.Pairwise PlayersDisjoint rm →
      (∀ m ∈ rm, ∀ p ∈ getMatchPlayers m, p ∈ playing) →
      List.Pairwise PlayersDisjoint
          (repairPass courts missing pool rm playing).1 ∧
        ∀ m ∈ (repairPass courts missing pool rm playing).1,
          ∀ p ∈ getMatchPlayers m,
            p ∈ (repairPass courts missing pool rm playing).2
  | [], rm, playing, hpw, hsub => ⟨hpw, hsub⟩
  | m :: ms, rm, playing, hpw, hsub => by
    unfold repairPass
    split
    · exact ⟨hpw, hsub⟩
    · split
      · exact repairPass_selInv courts missing ms rm playing hpw hsub
      · split
        · exact repairPass_selInv courts missing ms rm playing hpw hsub
        · next hconf =>
          have hconf' : ∀ p ∈ getMatchPlayers m, p ∉ playing := by
            simpa using hconf
          exact repairPass_selInv courts missing ms _ _
            (pairwise_push hpw hsub hconf') (sub_push hsub rfl)

/-! ### Membership through the packing passes -/

theorem forcedPass_mem (courts : Int) (stats : StatsMap) (r T : Int) :
    ∀ (cands : List Candidate) (sel : List MatchObj) (used : List Player)
      (m : MatchObj), m ∈ (forcedPass courts stats r T cands sel used).1 →
      m ∈ sel ∨ ∃ c ∈ cands, m = c.mtch
  | [], sel, used, m, h => Or.inl h
  | c :: cs, sel, used, m, h => by
    revert h
    unfold forcedPass
    split
    · exact fun h => Or.inl h
    · split
      · split
        · intro h
          rcases forcedPass_mem courts stats r T cs sel used m h with h | ⟨c', hc', rfl⟩
          · exact Or.inl h
          · exact Or.inr ⟨c', List.mem_cons_of_mem c hc', rfl⟩
        · intro h
          rcases forcedPass_mem courts stats r T cs _ _ m h with h | ⟨c', hc', rfl⟩
          · rcases List.mem_append.mp h with h | h
            · exact Or.inl h
            · rcases List.mem_singleton.mp h with rfl
              exact Or.inr ⟨c, List.mem_cons_self c cs, rfl⟩
          · exact Or.inr ⟨c', List.mem_cons_of_mem c hc', rfl⟩
      · intro h
        rcases forcedPass_mem courts stats r T cs sel used m h with h | ⟨c', hc', rfl⟩
        · exact Or.inl h
        · exact Or.inr ⟨c', List.mem_cons_of_mem c hc', rfl⟩

theorem fillPass_mem (courts : Int) :
    ∀ (cands : List Candidate) (sel : List MatchObj) (used : List Player)
      (m : MatchObj), m ∈ (fillPass courts cands sel used).1 →
      m ∈ sel ∨ ∃ c ∈ cands, m = c.mtch
  | [], sel, used, m, h => Or.inl h
  | c :: cs, sel, used, m, h => by
    revert h
    unfold fillPass
    split
    · exact fun h => Or.inl h
    · split
      · intro h
        rcases fillPass_mem courts cs sel used m h with h | ⟨c', hc', rfl⟩
        · exact Or.inl h
        · exact Or.inr ⟨c', List.mem_cons_of_mem c hc', rfl⟩
      · split
        · intro h
          rcases fillPass_mem courts cs sel used m h with h | ⟨c', hc', rfl⟩
          · exact Or.inl h
          · exact Or.inr ⟨c', List.mem_cons_of_mem c hc', rfl⟩
        · intro h
          rcases fillPass_mem courts cs _ _ m h with h | ⟨c', hc', rfl⟩
          · rcases List.mem_append.mp h with h | h
            · exact Or.inl h
            · rcases List.mem_singleton.mp h with rfl
              exact Or.inr ⟨c, List.mem_cons_self c cs, rfl⟩
          · exact Or.inr ⟨c', List.mem_cons_of_mem c hc', rfl⟩

theorem repairPass_mem (courts : Int) (missing : List Player) :
    ∀ (pool rm : List MatchObj) (playing : List Player) (m : MatchObj),
      m ∈ (repairPass courts missing pool rm playing).1 →
      m ∈ rm ∨ m ∈ pool
  | [], rm, playing, m, h => Or.inl h
  | mo :: ms, rm, playing, m, h => by
    revert h
    unfold repairPass
    split
    · exact fun h => Or.inl h
    · split
      · intro h
        rcases repairPass_mem courts missing ms rm playing m h with h | h
        · exact Or.inl h
        · exact Or.inr (List.mem_cons_of_mem mo h)
      · split
        · intro h
          rcases repairPass_mem courts missing ms rm playing m h with h | h
          · exact Or.inl h
          · exact Or.inr (List.mem_cons_of_mem mo h)
        · intro h
          rcases repairPass_mem courts missing ms _ _ m h with h | h
          · rcases List.mem_append.mp h with h | h
            · exact Or.inl h
            · rcases List.mem_singleton.mp h with rfl
              exact Or.inr (List.mem_cons_self _ _)
          · exact Or.inr (List.mem_cons_of_mem mo h)

/-! ### Length bounds of the packing passes -/

theorem forcedPass_length (courts : Int) (stats : StatsMap) (r T : Int) :
    ∀ (cands : List Candidate) (sel : List MatchObj) (used : List Player),
      (((forcedPass courts stats r T cands sel used).1.length : Int)) ≤
        max (sel.length : Int) courts
  | [], sel, used => le_max_left _ _
  | c :: cs, sel, used => by
    unfold forcedPass
    split
    · exact le_max_left _ _
    · next hlt =>
      split
      · split
        · exact forcedPass_length courts stats r T cs sel used
        · have h := forcedPass_length courts stats r T cs (sel ++ [c.mtch])
            (used ++ c.players)
          have hlen : ((sel ++ [c.mtch]).length : Int) = (sel.length : Int) + 1 := by
            simp
          rw [hlen] at h
          have hle : (sel.length : Int) + 1 ≤ courts := by omega
          rw [max_eq_right hle] at h
          exact h.trans (le_max_right _ _)
      · exact forcedPass_length courts stats r T cs sel used

theorem fillPass_length (courts : Int) :
    ∀ (cands : List Candidate) (sel : List MatchObj) (used : List Player),
      (((fillPass courts cands sel used).1.length : Int)) ≤
        max (sel.length : Int) courts
  | [], sel, used => le_max_left _ _
  | c :: cs, sel, used => by
    unfold fillPass
    split
    · exact le_max_left _ _
    · next hlt =>
      split
      · exact fillPass_length courts cs sel used
      · split
        · exact fillPass_length courts cs sel used
        · have h := fillPass_length courts cs (sel ++ [c.mtch]) (used ++ c.players)
          have hlen : ((sel ++ [c.mtch]).length : Int) = (sel.length : Int) + 1 := by
            simp
          rw [hlen] at h
          have hle : (sel.length : Int) + 1 ≤ courts := by omega
          rw [max_eq_right hle] at h
          exact h.trans (le_max_right _ _)

theorem repairPass_length (courts : Int) (missing : List Player) :
    ∀ (pool rm : List MatchObj) (playing : List Player),
      (((repairPass courts missing pool rm playing).1.length : Int)) ≤
        max (rm.length : Int) courts
  | [], rm, playing => le_max_left _ _
  | mo :: ms, rm, playing => by
    unfold repairPass
    split
    · exact le_max_left _ _
    · next hlt =>
      split
      · exact repairPass_length courts missing ms rm playing
      · split
        · exact repairPass_length courts missing ms rm playing
        · have h := repairPass_length courts missing ms (rm ++ [mo])
            (playing ++ getMatchPlayers mo)
          have hlen : ((rm ++ [mo]).length : Int) = (rm.length : Int) + 1 := by
            simp
          rw [hlen] at h
          have hle : (rm.length : Int) + 1 ≤ courts := by omega
          rw [max_eq_right hle] at h
          exact h.trans (le_max_right _ _)

/-! ### The enumerator stays inside the roster -/

theorem pairTeams_mem :
    ∀ (ps : List Player) (t : Team), t ∈ pairTeams ps → ∀ p ∈ t, p ∈ ps
  | [], t, h => by simp [pairTeams] at h
  | q :: qs, t, h => by
    rw [pairTeams, List.mem_append] at h
    rcases h with h | h
    · obtain ⟨q', hq', rfl⟩ := List.mem_map.mp h
      intro p hp
      rcases List.mem_cons.mp hp with rfl | hp
      · exact List.mem_cons_self _ _
      · rcases List.mem_singleton.mp hp with rfl
        exact List.mem_cons_of_mem _ hq'
    · intro p hp
      exact List.mem_cons_of_mem _ (pairTeams_mem qs t h p hp)

theorem generateTeams_mem (roster : List Player) (mt : MatchType) (t : Team)
    (h : t ∈ generateTeams roster mt) : ∀ p ∈ t, p ∈ roster := by
  cases mt with
  | singles =>
    obtain ⟨q, hq, rfl⟩ := List.mem_map.mp h
    intro p hp
    rcases List.mem_singleton.mp hp with rfl
    exact hq
  | doubles => exact pairTeams_mem roster t h

theorem genMatchesFrom_mem (t : Team) :
    ∀ (us : List Team) (n : Nat) (m : MatchObj),
      m ∈ (genMatchesFrom t us n).1 → m.teamA = t ∧ m.teamB ∈ us
  | [], n, m, h => by simp [genMatchesFrom] at h
  | u :: us, n, m, h => by
    revert h
    unfold genMatchesFrom
    split
    · intro h
      obtain ⟨hA, hB⟩ := genMatchesFrom_mem t us n m h
      exact ⟨hA, List.mem_cons_of_mem u hB⟩
    · intro h
      rcases List.mem_cons.mp h with rfl | h
      · exact ⟨rfl, List.mem_cons_self _ _⟩
      · obtain ⟨hA, hB⟩ := genMatchesFrom_mem t us (n + 1) m h
        exact ⟨hA, List.mem_cons_of_mem u hB⟩

theorem generateAllMatches_teams :
    ∀ (ts : List Team) (n : Nat) (m : MatchObj),
      m ∈ (generateAllMatches ts n).1 → m.teamA ∈ ts ∧ m.teamB ∈ ts
  | [], n, m, h => by simp [generateAllMatches] at h
  | t :: ts, n, m, h => by
    rw [generateAllMatches] at h
    rcases List.mem_append.mp h with h | h
    · obtain ⟨hA, hB⟩ := genMatchesFrom_mem t ts n m h
      exact ⟨hA ▸ List.mem_cons_self _ _, List.mem_cons_of_mem t hB⟩
    · obtain ⟨hA, hB⟩ := generateAllMatches_teams ts _ m h
      exact ⟨List.mem_cons_of_mem t hA, List.mem_cons_of_mem t hB⟩

theorem mem_getMatchPlayers (m : MatchObj) (p : Player) :
    p ∈ getMatchPlayers m ↔ p ∈ m.teamA ∨ p ∈ m.teamB := by
  rw [getMatchPlayers, mem_dedupFirst, List.mem_append]

theorem generated_players_sub_roster (roster : List Player) (mt : MatchType)
    (n : Nat) (m : MatchObj)
    (h : m ∈ (generateAllMatches (generateTeams roster mt) n).1) :
    ∀ p ∈ getMatchPlayers m, p ∈ roster := by
  obtain ⟨hA, hB⟩ := generateAllMatches_teams _ n m h
  intro p hp
  rcases (mem_getMatchPlayers m p).mp hp with hp | hp
  · exact generateTeams_mem roster mt _ hA p hp
  · exact generateTeams_mem roster mt _ hB p hp

/-! ### Facts about `selectRoundMatches` and `selectWithRepair` -/

theorem sorted_candidate_players (availableMatches : List MatchObj)
    (stats : StatsMap) (tu : NatMap) (tl : IntMap) (r : Int) :
    ∀ c ∈ sortCands (compareCands stats r)
      (availableMatches.map (mkCandidate stats tu tl r)),
      c.players = getMatchPlayers c.mtch := by
  intro c hcmem
  obtain ⟨m, _, rfl⟩ := List.mem_map.mp (mem_sortCands hcmem)
  rfl

theorem selectRoundMatches_pairwise (availableMatches : List MatchObj)
    (courts : Int) (stats : StatsMap) (tu : NatMap) (tl : IntMap) (r : Int) :
    List.Pairwise PlayersDisjoint
        (selectRoundMatches availableMatches courts stats tu tl r) ∧
      ∀ m ∈ selectRoundMatches availableMatches courts stats tu tl r,
        ∀ p ∈ getMatchPlayers m,
          p ∈ (fillPass courts
            (sortCands (compareCands stats r)
              (availableMatches.map (mkCandidate stats tu tl r)))
            (forcedPass courts stats r (maxConsecutiveRestsOf stats.length)
              (sortCands (compareCands stats r)
                (availableMatches.map (mkCandidate stats tu tl r))) [] []).1
            (forcedPass courts stats r (maxConsecutiveRestsOf stats.length)
              (sortCands (compareCands stats r)
                (availableMatches.map (mkCandidate stats tu tl r))) [] []).2).2 := by
  unfold selectRoundMatches
  split
  · exact ⟨List.Pairwise.nil, by simp⟩
  · have hc := sorted_candidate_players availableMatches stats tu tl r
    have h1 := forcedPass_selInv courts stats r
      (maxConsecutiveRestsOf stats.length) _ [] [] hc List.Pairwise.nil
      (by simp)
    have h2 := fillPass_selInv courts _ _ _ hc h1.1 h1.2
    exact h2

theorem selectRoundMatches_subset (availableMatches : List MatchObj)
    (courts : Int) (stats : StatsMap) (tu : NatMap) (tl : IntMap) (r : Int)
    (m : MatchObj)
    (h : m ∈ selectRoundMatches availableMatches courts stats tu tl r) :
    m ∈ availableMatches := by
  revert h
  unfold selectRoundMatches
  split
  · intro h
    simp at h
  · intro h
    rcases fillPass_mem courts _ _ _ m h with h | ⟨c, hcmem, rfl⟩
    · rcases forcedPass_mem courts stats r _ _ _ _ m h with h | ⟨c, hcmem, rfl⟩
      · simp at h
      · obtain ⟨m', hm', rfl⟩ := List.mem_map.mp (mem_sortCands hcmem)
        exact hm'
    · obtain ⟨m', hm', rfl⟩ := List.mem_map.mp (mem_sortCands hcmem)
      exact hm'

theorem selectRoundMatches_length (availableMatches : List MatchObj)
    (courts : Int) (stats : StatsMap) (tu : NatMap) (tl : IntMap) (r : Int)
    (hc : 0 ≤ courts) :
    ((selectRoundMatches availableMatches courts stats tu tl r).length : Int) ≤
      courts := by
  unfold selectRoundMatches
  split
  · simpa using hc
  · have h1 := forcedPass_length courts stats r
      (maxConsecutiveRestsOf stats.length)
      (sortCands (compareCands stats r)
        (availableMatches.map (mkCandidate stats tu tl r))) [] []
    rw [show ((([] : List MatchObj).length : Int)) = 0 by simp,
      max_eq_right hc] at h1
    have h2 := fillPass_length courts
      (sortCands (compareCands stats r)
        (availableMatches.map (mkCandidate stats tu tl r)))
      (forcedPass courts stats r (maxConsecutiveRestsOf stats.length)
        (sortCands (compareCands stats r)
          (availableMatches.map (mkCandidate stats tu tl r))) [] []).1
      (forcedPass courts stats r (maxConsecutiveRestsOf stats.length)
        (sortCands (compareCands stats r)
          (availableMatches.map (mkCandidate stats tu tl r))) [] []).2
    rw [max_eq_right h1] at h2
    exact h2

theorem baseSelect_pairwise (courts : Int) (s : SchedState) :
    List.Pairwise PlayersDisjoint (baseSelect courts s) :=
  (selectRoundMatches_pairwise s.remaining courts s.playerStats
    s.teamUsageCount s.teamLastUsedRound (s.roundNumber : Int)).1

theorem baseSelect_subset (courts : Int) (s : SchedState) (m : MatchObj)
    (h : m ∈ baseSelect courts s) : m ∈ s.remaining :=
  selectRoundMatches_subset _ _ _ _ _ _ m h

theorem baseSelect_length (courts : Int) (s : SchedState) (hc : 0 ≤ courts) :
    ((baseSelect courts s).length : Int) ≤ courts :=
  selectRoundMatches_length _ _ _ _ _ _ hc

theorem selectWithRepair_pairwise (players : List Player) (courts : Int)
    (mt : MatchType) (T : Int) (s : SchedState) :
    List.Pairwise PlayersDisjoint
      (selectWithRepair players courts mt T s).1 := by
  unfold selectWithRepair
  split
  · split
    · exact (repairPass_selInv courts _ _ _ _ (baseSelect_pairwise courts s)
        (fun m hm p hp => (mem_unionPlayers _ p).mpr ⟨m, hm, hp⟩)).1
    · exact baseSelect_pairwise courts s
  · exact baseSelect_pairwise courts s

theorem selectWithRepair_mem (players : List Player) (courts : Int)
    (mt : MatchType) (T : Int) (s : SchedState) (m : MatchObj)
    (h : m ∈ (selectWithRepair players courts mt T s).1) :
    m ∈ s.remaining ∨
      m ∈ (generateAllMatches (generateTeams players mt) s.nextId).1 := by
  revert h
  unfold selectWithRepair
  split
  · split
    · intro h
      rcases repairPass_mem courts _ _ _ _ m h with h | h
      · exact Or.inl (baseSelect_subset courts s m h)
      · exact Or.inr h
    · intro h
      exact Or.inl (baseSelect_subset courts s m h)
  · intro h
    exact Or.inl (baseSelect_subset courts s m h)

theorem selectWithRepair_length (players : List Player) (courts : Int)
    (mt : MatchType) (T : Int) (s : SchedState) (hc : 0 ≤ courts) :
    (((selectWithRepair players courts mt T s).1.length : Int)) ≤ courts := by
  unfold selectWithRepair
  split
  · split
    · have h2 := repairPass_length courts
        (missingUrgentOf players T s (baseSelect courts s))
        (generateAllMatches (generateTeams players mt) s.nextId).1
        (baseSelect courts s) (unionPlayers (baseSelect courts s))
      rw [max_eq_right (baseSelect_length courts s hc)] at h2
      exact h2
    · exact baseSelect_length courts s hc
  · exact baseSelect_length courts s hc

/-! ### Generic induction over the scheduling loop -/

theorem schedLoop_induct (players : List Player) (courts : Int)
    (mt : MatchType) (T : Int) (P : SchedState → Prop)
    (step : ∀ s : SchedState, s.remaining.isEmpty = false →
      gateTriggers players T s = false →
      (selectWithRepair players courts mt T s).1.isEmpty = false →
      P s →
      P (commitRound players s (selectWithRepair players courts mt T s).1
          (selectWithRepair players courts mt T s).2)) :
    ∀ (fuel : Nat) (s : SchedState), P s →
      P (schedLoop players courts mt T fuel s)
  | 0, s, h => h
  | fuel + 1, s, h => by
    unfold schedLoop
    split
    · exact h
    · next h1 =>
      split
      · exact h
      · next h2 =>
        split
        · exact h
        · next h3 =>
          exact schedLoop_induct players courts mt T P step fuel _
            (step s (by simpa using h1) (by simpa using h2)
              (by simpa using h3) h)

theorem runSchedule_fst (players : List Player) (courts : Int)
    (mt : MatchType) :
    (runSchedule players courts mt).1 =
      (schedLoop players courts mt (maxConsecutiveRestsOf players.length)
        maxIterations (initState players mt)).rounds := rfl

theorem scheduleRounds_generateSchedule (ps : List Player) (c : Int)
    (mt : MatchType) :
    scheduleRounds (generateSchedule ps c mt) =
      if 5 ≤ (dedupFirst ps).length ∧ 1 ≤ c then
        (runSchedule (dedupFirst ps) c mt).1
      else [] := by
  by_cases h1 : (dedupFirst ps).length < ps.length ∧ (dedupFirst ps).length < 5
  · rw [if_neg (by omega)]
    simp [generateSchedule, if_pos h1, scheduleRounds]
  · by_cases h2 : (dedupFirst ps).length < 5
    · rw [if_neg (by omega)]
      simp [generateSchedule, if_neg h1, if_pos h2, scheduleRounds]
    · by_cases h3 : c < 1
      · rw [if_neg (by omega)]
        simp [generateSchedule, if_neg h1, if_neg h2, if_pos h3, scheduleRounds]
      · rw [if_pos (by omega)]
        simp [generateSchedule, if_neg h1, if_neg h2, if_neg h3, scheduleRounds]

/-! ### C2 — validation boundary -/

/-- C2 (amended: the engine counts the empty string like any other unique
player; emptiness is filtered at the HTTP boundary, outside
`generateSchedule`): the player list is deduplicated preserving first
occurrence, and the call fails with a validation error exactly when fewer
than 5 unique players remain after deduplication or `courts < 1`; an error
carries no rounds, and otherwise a schedule is returned. -/
theorem generateSchedule_validation (ps : List Player) (c : Int)
    (mt : MatchType) :
    (dedupFirst ps).Nodup ∧ (∀ p, p ∈ dedupFirst ps ↔ p ∈ ps) ∧
      (dedupFirst ps).Sublist ps ∧
      scheduleOk (generateSchedule ps c mt) =
        decide (5 ≤ (dedupFirst ps).length ∧ 1 ≤ c) := by
  refine ⟨dedupFirst_nodup ps, mem_dedupFirst ps, dedupFirst_sublist ps, ?_⟩
  by_cases h1 : (dedupFirst ps).length < ps.length ∧ (dedupFirst ps).length < 5
  · simp only [generateSchedule, if_pos h1, scheduleOk]
    rw [eq_comm, decide_eq_false_iff_not]
    omega
  · by_cases h2 : (dedupFirst ps).length < 5
    · simp only [generateSchedule, if_neg h1, if_pos h2, scheduleOk]
      rw [eq_comm, decide_eq_false_iff_not]
      omega
    · by_cases h3 : c < 1
      · simp only [generateSchedule, if_neg h1, if_neg h2, if_pos h3, scheduleOk]
        rw [eq_comm, decide_eq_false_iff_not]
        omega
      · simp only [generateSchedule, if_neg h1, if_neg h2, if_neg h3, scheduleOk]
        rw [eq_comm, decide_eq_true_eq]
        omega

set_option maxRecDepth 4000000 in
/-- C2, counterexample: an input containing the empty string as a player
name. Only 4 unique non-empty names remain, yet `generateSchedule`
succeeds: the claimed "non-empty" failure condition is not what the code
implements. -/
theorem generateSchedule_acceptsEmptyName :
    scheduleOk (generateSchedule ["", "A", "B", "C", "D"] 1 .singles) = true ∧
      ((dedupFirst ["", "A", "B", "C", "D"]).filter
        (fun p => p ≠ "")).length < 5 := by
  constructor
  · decide
  · decide

/-! ### C9 — termination and the 1000-round cap -/

theorem commitRound_rounds (players : List Player) (s : SchedState)
    (rm : List MatchObj) (nid : Nat) :
    (commitRound players s rm nid).rounds = s.rounds ++
      [⟨"r" ++ toString (s.roundNumber + 1), rm,
        players.filter (fun p => !(unionPlayers rm).contains p), false⟩] := rfl

theorem schedLoop_rounds_le (players : List Player) (courts : Int)
    (mt : MatchType) (T : Int) :
    ∀ (fuel : Nat) (s : SchedState),
      (schedLoop players courts mt T fuel s).rounds.length ≤
        s.rounds.length + fuel
  | 0, s => Nat.le_add_right _ _
  | fuel + 1, s => by
    unfold schedLoop
    split
    · omega
    · split
      · omega
      · split
        · omega
        · have h := schedLoop_rounds_le players courts mt T fuel
            (commitRound players s
              (selectWithRepair players courts mt T s).1
              (selectWithRepair players courts mt T s).2)
          rw [commitRound_rounds] at h
          simp only [List.length_append, List.length_cons, List.length_nil] at h
          omega

/-- C9: `generateSchedule` is a total function of its inputs (the scheduling
loop structurally recurses on the fuel `maxIterations − roundNumber`, which
is exactly the source's `roundNumber < 1000` guard), and every returned
schedule has at most 1000 rounds. -/
theorem generateSchedule_rounds_le_1000 (ps : List Player) (c : Int)
    (mt : MatchType) :
    (scheduleRounds (generateSchedule ps c mt)).length ≤ 1000 := by
  by_cases h1 : (dedupFirst ps).length < ps.length ∧ (dedupFirst ps).length < 5
  · simp [generateSchedule, if_pos h1, scheduleRounds]
  · by_cases h2 : (dedupFirst ps).length < 5
    · simp [generateSchedule, if_neg h1, if_pos h2, scheduleRounds]
    · by_cases h3 : c < 1
      · simp [generateSchedule, if_neg h1, if_neg h2, if_pos h3, scheduleRounds]
      · simp only [generateSchedule, if_neg h1, if_neg h2, if_neg h3,
          scheduleRounds]
        unfold runSchedule
        have h := schedLoop_rounds_le (dedupFirst ps) c mt
          (maxConsecutiveRestsOf (dedupFirst ps).length) maxIterations
          ⟨(generateAllMatches (generateTeams (dedupFirst ps) mt) 0).1,
            (dedupFirst ps).map (fun p => (p, ⟨0, 0, -1⟩)),
            (generateTeams (dedupFirst ps) mt).foldl
              (fun acc t => alSet acc (getTeamKey t) 0) [],
            (generateTeams (dedupFirst ps) mt).foldl
              (fun acc t => alSet acc (getTeamKey t) (-10)) [],
            [], 0,
            (generateAllMatches (generateTeams (dedupFirst ps) mt) 0).2⟩
        simpa [maxIterations] using h

/-! ### C7 — the safety gate halts scheduling -/

/-- C7: whenever, at the top of a scheduling-loop iteration, the safety
gate fires (some player is urgent and no remaining match contains an urgent
player), the loop of `generateSchedule` returns its state unchanged: no
further round is ever appended. -/
theorem schedLoop_gate_stops (players : List Player) (courts : Int)
    (mt : MatchType) (T : Int) (fuel : Nat) (s : SchedState)
    (h : gateTriggers players T s = true) :
    schedLoop players courts mt T fuel s = s := by
  cases fuel with
  | zero => rfl
  | succ n =>
    simp only [schedLoop, h]
    split <;> simp

theorem genMatchesFrom_ids (t : Team) :
    ∀ (us : List Team) (n : Nat),
      n ≤ (genMatchesFrom t us n).2 ∧
        (∀ m ∈ (genMatchesFrom t us n).1,
          n ≤ m.id ∧ m.id < (genMatchesFrom t us n).2) ∧
        List.Pairwise (fun a b : MatchObj => a.id < b.id)
          (genMatchesFrom t us n).1
  | [], n => ⟨Nat.le_refl n, by simp [genMatchesFrom], by simp [genMatchesFrom]⟩
  | u :: us, n => by
    unfold genMatchesFrom
    split
    · exact genMatchesFrom_ids t us n
    · obtain ⟨hle, hbound, hpw⟩ := genMatchesFrom_ids t us (n + 1)
      dsimp only
      refine ⟨by omega, ?_, ?_⟩
      · intro m hm
        rcases List.mem_cons.mp hm with rfl | hm
        · refine ⟨Nat.le_refl n, ?_⟩
          dsimp only
          omega
        · have := hbound m hm
          omega
      · refine List.pairwise_cons.mpr ⟨?_, hpw⟩
        intro m hm
        have := hbound m hm
        dsimp only
        omega

theorem generateAllMatches_ids :
    ∀ (ts : List Team) (n : Nat),
      n ≤ (generateAllMatches ts n).2 ∧
        (∀ m ∈ (generateAllMatches ts n).1,
          n ≤ m.id ∧ m.id < (generateAllMatches ts n).2) ∧
        List.Pairwise (fun a b : MatchObj => a.id < b.id)
          (generateAllMatches ts n).1
  | [], n => ⟨Nat.le_refl n, by simp [generateAllMatches], by
      simp [generateAllMatches]⟩
  | t :: ts, n => by
    rw [generateAllMatches]
    obtain ⟨h1le, h1bound, h1pw⟩ := genMatchesFrom_ids t ts n
    obtain ⟨h2le, h2bound, h2pw⟩ :=
      generateAllMatches_ids ts (genMatchesFrom t ts n).2
    refine ⟨by omega, ?_, ?_⟩
    · intro m hm
      rcases List.mem_append.mp hm with hm | hm
      · have := h1bound m hm
        omega
      · have := h2bound m hm
        omega
    · rw [List.pairwise_append]
      refine ⟨h1pw, h2pw, ?_⟩
      intro a ha b hb
      have := h1bound a ha
      have := h2bound b hb
      omega

theorem generateAllMatches_ids_nodup (ts : List Team) (n : Nat) :
    (idsOf (generateAllMatches ts n).1).Nodup := by
  have hpw := (generateAllMatches_ids ts n).2.2
  exact List.pairwise_map.mpr (hpw.imp fun h => Nat.ne_of_lt h)

/-! ### Id distinctness through the packing passes -/

theorem forcedPass_idsNodup (courts : Int) (stats : StatsMap) (r T : Int) :
    ∀ (cands : List Candidate) (sel : List MatchObj) (used : List Player),
      (idsOf sel ++ cands.map (fun c => c.mtch.id)).Nodup →
      (idsOf (forcedPass courts stats r T cands sel used).1).Nodup
  | [], sel, used, h => by simpa using h
  | c :: cs, sel, used, h => by
    have hskip : (idsOf sel ++ cs.map (fun c => c.mtch.id)).Nodup := by
      refine List.Nodup.sublist ?_ h
      exact List.Sublist.append_left (by simp) (idsOf sel)
    have hpush : (idsOf (sel ++ [c.mtch]) ++
        cs.map (fun c => c.mtch.id)).Nodup := by
      have heq : idsOf (sel ++ [c.mtch]) ++ cs.map (fun c => c.mtch.id) =
          idsOf sel ++ (c :: cs).map (fun c => c.mtch.id) := by
        simp [idsOf]
      rw [heq]
      exact h
    unfold forcedPass
    split
    · exact (List.nodup_append.mp h).1
    · split
      · split
        · exact forcedPass_idsNodup courts stats r T cs sel used hskip
        · exact forcedPass_idsNodup courts stats r T cs _ _ hpush
      · exact forcedPass_idsNodup courts stats r T cs sel used hskip

theorem fillPass_idsNodup (courts : Int) (avail : List MatchObj) :
    ∀ (cands : List Candidate) (sel : List MatchObj) (used : List Player),
      (idsOf avail).Nodup → (∀ c ∈ cands, c.mtch ∈ avail) →
      (∀ m ∈ sel, m ∈ avail) → (idsOf sel).Nodup →
      (idsOf (fillPass courts cands sel used).1).Nodup
  | [], sel, used, _, _, _, hsel => hsel
  | c :: cs, sel, used, hav, hcands, hselmem, hsel => by
    have hctail : ∀ x ∈ cs, x.mtch ∈ avail :=
      fun x hx => hcands x (List.mem_cons_of_mem c hx)
    unfold fillPass
    split
    · exact hsel
    · split
      · exact fillPass_idsNodup courts avail cs sel used hav hctail hselmem hsel
      · next hnot =>
        split
        · exact fillPass_idsNodup courts avail cs sel used hav hctail hselmem hsel
        · have hnotin : c.mtch.id ∉ idsOf sel := by
            intro hin
            obtain ⟨m, hm, hmid⟩ := List.mem_map.mp hin
            have hmav : m ∈ avail := hselmem m hm
            have hcav : c.mtch ∈ avail := hcands c (List.mem_cons_self c cs)
            have : m = c.mtch :=
              List.inj_on_of_nodup_map hav hmav hcav hmid
            rw [this] at hm
            simp at hnot
            exact hnot hm
          have hselmem' : ∀ m ∈ sel ++ [c.mtch], m ∈ avail := by
            intro m hm
            rcases List.mem_append.mp hm with hm | hm
            · exact hselmem m hm
            · rcases List.mem_singleton.mp hm with rfl
              exact hcands c (List.mem_cons_self c cs)
          have hsel' : (idsOf (sel ++ [c.mtch])).Nodup := by
            rw [idsOf, List.map_append]
            refine List.Nodup.append hsel (by simp) ?_
            intro a ha hb
            rcases List.mem_singleton.mp hb with rfl
            exact hnotin ha
          exact fillPass_idsNodup courts avail cs _ _ hav hctail hselmem' hsel'

theorem repairPass_idsNodup (courts : Int) (missing : List Player) :
    ∀ (pool rm : List MatchObj) (playing : List Player),
      (idsOf rm ++ idsOf pool).Nodup →
      (idsOf (repairPass courts missing pool rm playing).1).Nodup
  | [], rm, playing, h => (List.nodup_append.mp h).1
  | mo :: ms, rm, playing, h => by
    have hskip : (idsOf rm ++ idsOf ms).Nodup := by
      refine List.Nodup.sublist ?_ h
      exact List.Sublist.append_left (by simp [idsOf]) (idsOf rm)
    have hpush : (idsOf (rm ++ [mo]) ++ idsOf ms).Nodup := by
      have heq : idsOf (rm ++ [mo]) ++ idsOf ms =
          idsOf rm ++ idsOf (mo :: ms) := by
        simp [idsOf]
      rw [heq]
      exact h
    unfold repairPass
    split
    · exact (List.nodup_append.mp h).1
    · split
      · exact repairPass_idsNodup courts missing ms rm playing hskip
      · split
        · exact repairPass_idsNodup courts missing ms rm playing hskip
        · exact repairPass_idsNodup courts missing ms _ _ hpush

theorem selectRoundMatches_idsNodup (availableMatches : List MatchObj)
    (courts : Int) (stats : StatsMap) (tu : NatMap) (tl : IntMap) (r : Int)
    (hav : (idsOf availableMatches).Nodup) :
    (idsOf (selectRoundMatches availableMatches courts stats tu tl r)).Nodup := by
  unfold selectRoundMatches
  split
  · simp [idsOf]
  · have hperm : ((sortCands (compareCands stats r)
        (availableMatches.map (mkCandidate stats tu tl r))).map
          (fun c => c.mtch.id)).Perm
        ((availableMatches.map (mkCandidate stats tu tl r)).map
          (fun c => c.mtch.id)) :=
      (sortCands_perm _ _).map _
    have heq : (availableMatches.map (mkCandidate stats tu tl r)).map
        (fun c => c.mtch.id) = idsOf availableMatches := by
      rw [List.map_map]
      rfl
    have hsorted : ((sortCands (compareCands stats r)
        (availableMatches.map (mkCandidate stats tu tl r))).map
          (fun c => c.mtch.id)).Nodup := by
      rw [hperm.nodup_iff, heq]
      exact hav
    have hA := forcedPass_idsNodup courts stats r
      (maxConsecutiveRestsOf stats.length) _ [] [] (by simpa using hsorted)
    have hAmem : ∀ m ∈ (forcedPass courts stats r
        (maxConsecutiveRestsOf stats.length)
        (sortCands (compareCands stats r)
          (availableMatches.map (mkCandidate stats tu tl r))) [] []).1,
        m ∈ availableMatches := by
      intro m hm
      rcases forcedPass_mem courts stats r _ _ _ _ m hm with hm | ⟨c, hcmem, rfl⟩
      · simp at hm
      · obtain ⟨m', hm', rfl⟩ := List.mem_map.mp (mem_sortCands hcmem)
        exact hm'
    refine fillPass_idsNodup courts availableMatches _ _ _ hav ?_ hAmem hA
    intro x hx
    obtain ⟨m', hm', rfl⟩ := List.mem_map.mp (mem_sortCands hx)
    exact hm'

theorem baseSelect_idsNodup (courts : Int) (s : SchedState)
    (h : (idsOf s.remaining).Nodup) : (idsOf (baseSelect courts s)).Nodup :=
  selectRoundMatches_idsNodup s.remaining courts s.playerStats
    s.teamUsageCount s.teamLastUsedRound (s.roundNumber : Int) h

theorem selectWithRepair_idsNodup (players : List Player) (courts : Int)
    (mt : MatchType) (T : Int) (s : SchedState)
    (hrem : (idsOf s.remaining).Nodup)
    (hlt : ∀ i ∈ idsOf s.remaining, i < s.nextId) :
    (idsOf (selectWithRepair players courts mt T s).1).Nodup := by
  unfold selectWithRepair
  split
  · split
    · refine repairPass_idsNodup courts _ _ _ _ ?_
      refine List.Nodup.append (baseSelect_idsNodup courts s hrem)
        (generateAllMatches_ids_nodup _ _) ?_
      intro i hi hi'
      have hlt' : i < s.nextId := by
        obtain ⟨m, hm, rfl⟩ := List.mem_map.mp hi
        exact hlt _ (List.mem_map.mpr ⟨m, baseSelect_subset courts s m hm, rfl⟩)
      obtain ⟨m', hm', rfl⟩ := List.mem_map.mp hi'
      have := ((generateAllMatches_ids (generateTeams players mt)
        s.nextId).2.1 m' hm').1
      omega
    · exact baseSelect_idsNodup courts s hrem
  · exact baseSelect_idsNodup courts s hrem

theorem selectWithRepair_nextId_le (players : List Player) (courts : Int)
    (mt : MatchType) (T : Int) (s : SchedState) :
    s.nextId ≤ (selectWithRepair players courts mt T s).2 := by
  unfold selectWithRepair
  split
  · split
    · exact (generateAllMatches_ids (generateTeams players mt) s.nextId).1
    · exact Nat.le_refl _
  · exact Nat.le_refl _

theorem selectWithRepair_id_cases (players : List Player) (courts : Int)
    (mt : MatchType) (T : Int) (s : SchedState) (m : MatchObj)
    (h : m ∈ (selectWithRepair players courts mt T s).1) :
    m ∈ s.remaining ∨
      (s.nextId ≤ m.id ∧ m.id < (selectWithRepair players courts mt T s).2) := by
  revert h
  unfold selectWithRepair
  split
  · split
    · intro h
      rcases repairPass_mem courts _ _ _ _ m h with h | h
      · exact Or.inl (baseSelect_subset courts s m h)
      · exact Or.inr ((generateAllMatches_ids (generateTeams players mt)
          s.nextId).2.1 m h)
    · intro h
      exact Or.inl (baseSelect_subset courts s m h)
  · intro h
    exact Or.inl (baseSelect_subset courts s m h)

/-! ### C5 — match ids are unique across the schedule -/

theorem commitRound_remaining (players : List Player) (s : SchedState)
    (rm : List MatchObj) (nid : Nat) :
    (commitRound players s rm nid).remaining =
      s.remaining.filter (fun m => !rm.any (fun x => x.id == m.id)) := rfl

theorem commitRound_nextId (players : List Player) (s : SchedState)
    (rm : List MatchObj) (nid : Nat) :
    (commitRound players s rm nid).nextId = nid := rfl

theorem allMatchIds_append (rs : List Round) (r : Round) :
    allMatchIds (rs ++ [r]) = allMatchIds rs ++ idsOf r.matches' := by
  simp [allMatchIds, idsOf]

/-- C5: across all rounds of every schedule returned by `generateSchedule`,
match ids are pairwise distinct — even when the urgency-repair pass inserts
a match whose team composition duplicates a previously scheduled one, the
inserted occurrence carries a freshly generated id. -/
theorem generateSchedule_match_ids_nodup (ps : List Player) (c : Int)
    (mt : MatchType) :
    (allMatchIds (scheduleRounds (generateSchedule ps c mt))).Nodup := by
  rw [scheduleRounds_generateSchedule]
  split
  case isFalse => simp [allMatchIds]
  rw [runSchedule_fst]
  refine (schedLoop_induct (dedupFirst ps) c mt
    (maxConsecutiveRestsOf (dedupFirst ps).length)
    (fun s => (allMatchIds s.rounds).Nodup ∧ (idsOf s.remaining).Nodup ∧
      (∀ i ∈ allMatchIds s.rounds, i ∉ idsOf s.remaining) ∧
      (∀ i ∈ allMatchIds s.rounds, i < s.nextId) ∧
      ∀ i ∈ idsOf s.remaining, i < s.nextId)
    ?_ maxIterations (initState (dedupFirst ps) mt) ?_).1
  · intro s _ _ _ hP
    obtain ⟨hR, hrem, hdisj, hRlt, hremlt⟩ := hP
    have hrmNodup := selectWithRepair_idsNodup (dedupFirst ps) c mt
      (maxConsecutiveRestsOf (dedupFirst ps).length) s hrem hremlt
    have hnidle := selectWithRepair_nextId_le (dedupFirst ps) c mt
      (maxConsecutiveRestsOf (dedupFirst ps).length) s
    have hcases := selectWithRepair_id_cases (dedupFirst ps) c mt
      (maxConsecutiveRestsOf (dedupFirst ps).length) s
    refine ⟨?_, ?_, ?_, ?_, ?_⟩
    · rw [commitRound_rounds, allMatchIds_append]
      refine List.Nodup.append hR hrmNodup ?_
      intro i hiR hirm
      obtain ⟨m, hm, rfl⟩ := List.mem_map.mp hirm
      rcases hcases m hm with hm' | hm'
      · exact hdisj m.id hiR (List.mem_map.mpr ⟨m, hm', rfl⟩)
      · have := hRlt m.id hiR
        omega
    · rw [commitRound_remaining]
      refine List.Nodup.sublist ?_ hrem
      exact (List.filter_sublist _).map _
    · rw [commitRound_rounds, allMatchIds_append, commitRound_remaining]
      intro i hi hi'
      obtain ⟨m, hmf, rfl⟩ := List.mem_map.mp hi'
      obtain ⟨hmrem, hmcond⟩ := List.mem_filter.mp hmf
      have hmnotin : ∀ x ∈ (selectWithRepair (dedupFirst ps) c mt
          (maxConsecutiveRestsOf (dedupFirst ps).length) s).1,
          ¬ x.id = m.id := by
        simpa using hmcond
      rcases List.mem_append.mp hi with hi | hi
      · exact hdisj m.id hi (List.mem_map.mpr ⟨m, hmrem, rfl⟩)
      · obtain ⟨x, hx, hxid⟩ := List.mem_map.mp hi
        exact hmnotin x hx hxid
    · rw [commitRound_rounds, allMatchIds_append, commitRound_nextId]
      intro i hi
      rcases List.mem_append.mp hi with hi | hi
      · have := hRlt i hi
        omega
      · obtain ⟨m, hm, rfl⟩ := List.mem_map.mp hi
        rcases hcases m hm with hm' | hm'
        · have := hremlt m.id (List.mem_map.mpr ⟨m, hm', rfl⟩)
          omega
        · omega
    · rw [commitRound_remaining, commitRound_nextId]
      intro i hi
      obtain ⟨m, hmf, rfl⟩ := List.mem_map.mp hi
      have := hremlt m.id
        (List.mem_map.mpr ⟨m, (List.mem_filter.mp hmf).1, rfl⟩)
      omega
  · refine ⟨by simp [allMatchIds, initState], ?_, ?_, ?_, ?_⟩
    · exact generateAllMatches_ids_nodup _ 0
    · intro i hi
      simp [allMatchIds, initState] at hi
    · intro i hi
      simp [allMatchIds, initState] at hi
    · intro i hi
      obtain ⟨m, hm, rfl⟩ := List.mem_map.mp hi
      exact ((generateAllMatches_ids (generateTeams (dedupFirst ps) mt)
        0).2.1 m hm).2

theorem sign_mul_pos_desc (x y k : Int) (hk : 0 < k) :
    ((y - x) * k).sign = ordSign (descOrd x y) := by
  rcases lt_trichotomy x y with h | rfl | h
  · rw [Int.sign_eq_one_iff_pos.mpr (mul_pos (by omega) hk)]
    rw [descOrd, if_neg (by omega), if_pos h]
    rfl
  · simp [descOrd, ordSign]
  · rw [Int.sign_eq_neg_one_iff_neg.mpr (mul_neg_of_neg_of_pos (by omega) hk)]
    rw [descOrd, if_pos h]
    rfl

theorem sign_sub_asc (x y : Int) : (x - y).sign = ordSign (ascOrd x y) := by
  rcases lt_trichotomy x y with h | rfl | h
  · rw [Int.sign_eq_neg_one_iff_neg.mpr (by omega)]
    rw [ascOrd, if_pos h]
    rfl
  · simp [ascOrd, ordSign]
  · rw [Int.sign_eq_one_iff_pos.mpr (by omega)]
    rw [ascOrd, if_neg (by omega), if_pos h]
    rfl

theorem avgRest_sub (a b : Candidate) (ha : 0 < a.avgRestDen)
    (hb : 0 < b.avgRestDen) :
    b.avgRest - a.avgRest =
      ((b.avgRestNum * a.avgRestDen - a.avgRestNum * b.avgRestDen : Int) : ℚ) /
        ((a.avgRestDen * b.avgRestDen : Int) : ℚ) := by
  rw [Candidate.avgRest, Candidate.avgRest,
    div_sub_div _ _ (by exact_mod_cast hb.ne') (by exact_mod_cast ha.ne')]
  push_cast
  ring_nf

theorem avg_threshold_iff (a b : Candidate) (ha : 0 < a.avgRestDen)
    (hb : 0 < b.avgRestDen) :
    (10 * |b.avgRestNum * a.avgRestDen - a.avgRestNum * b.avgRestDen| >
        3 * (a.avgRestDen * b.avgRestDen)) ↔
      |a.avgRest - b.avgRest| > 3 / 10 := by
  have hden : (0 : ℚ) < ((a.avgRestDen * b.avgRestDen : Int) : ℚ) := by
    exact_mod_cast mul_pos ha hb
  rw [show (|a.avgRest - b.avgRest| : ℚ) = |b.avgRest - a.avgRest| from
    abs_sub_comm _ _]
  rw [avgRest_sub a b ha hb, abs_div, abs_of_pos hden, gt_iff_lt, gt_iff_lt,
    div_lt_div_iff (by norm_num) hden]
  rw [show |((b.avgRestNum * a.avgRestDen - a.avgRestNum * b.avgRestDen : Int) : ℚ)| =
    ((|b.avgRestNum * a.avgRestDen - a.avgRestNum * b.avgRestDen| : Int) : ℚ) by
      rw [Int.cast_abs]]
  constructor
  · intro h
    exact_mod_cast by omega
  · intro h
    have h' : (3 * (a.avgRestDen * b.avgRestDen) : Int) <
        |b.avgRestNum * a.avgRestDen - a.avgRestNum * b.avgRestDen| * 10 := by
      exact_mod_cast h
    omega

theorem avg_pos_iff (a b : Candidate) (ha : 0 < a.avgRestDen)
    (hb : 0 < b.avgRestDen) :
    (0 < b.avgRestNum * a.avgRestDen - a.avgRestNum * b.avgRestDen) ↔
      a.avgRest < b.avgRest := by
  have hden : (0 : ℚ) < ((a.avgRestDen * b.avgRestDen : Int) : ℚ) := by
    exact_mod_cast mul_pos ha hb
  rw [show (a.avgRest < b.avgRest) ↔ 0 < b.avgRest - a.avgRest by
    constructor <;> intro h <;> linarith]
  rw [avgRest_sub a b ha hb, lt_div_iff hden]
  constructor
  · intro h
    rw [zero_mul]
    exact_mod_cast h
  · intro h
    rw [zero_mul] at h
    exact_mod_cast h

theorem maxConsecutiveRestsOf_cases (n : Nat) :
    maxConsecutiveRestsOf n = 1 ∨ maxConsecutiveRestsOf n = 2 := by
  unfold maxConsecutiveRestsOf
  split
  · exact Or.inl rfl
  · exact Or.inr rfl

theorem firstNe_eq_cons (os : List Ordering) :
    firstNe (.eq :: os) = firstNe os := rfl

theorem firstNe_singleton (o : Ordering) : firstNe [o] = o := by
  cases o <;> rfl

theorem ordSign_firstNe_cons_of_ne {o : Ordering} (os : List Ordering)
    (h : o ≠ .eq) : firstNe (o :: os) = o := by
  cases o with
  | lt => rfl
  | eq => exact absurd rfl h
  | gt => rfl

theorem descOrd_ne_eq {x y : Int} (h : x ≠ y) : descOrd x y ≠ .eq := by
  unfold descOrd
  rcases lt_trichotomy x y with h' | h' | h'
  · rw [if_neg (by omega), if_pos h']
    exact fun hc => Ordering.noConfusion hc
  · exact absurd h' h
  · rw [if_pos h']
    exact fun hc => Ordering.noConfusion hc

theorem descOrd_self (x : Int) : descOrd x x = .eq := by
  unfold descOrd
  rw [if_neg (lt_irrefl x), if_neg (lt_irrefl x)]

/-- Sign agreement on the last four priority levels (collective recency,
rest balance, minimum waiter, freshness). -/
theorem sign_tail_spec (stats : StatsMap) (r : Int) (a b : Candidate)
    (ha : 0 < a.avgRestDen) (hb : 0 < b.avgRestDen) :
    Int.sign
      (if sumRoundsSince stats r a.players ≠ sumRoundsSince stats r b.players
        then
          (sumRoundsSince stats r b.players -
            sumRoundsSince stats r a.players) * 100
        else
          if 10 * |b.avgRestNum * a.avgRestDen - a.avgRestNum * b.avgRestDen| >
              3 * (a.avgRestDen * b.avgRestDen) then
            (if b.avgRestNum * a.avgRestDen - a.avgRestNum * b.avgRestDen > 0
              then 1 else -1) * 50
          else
            if minRoundsSince stats r a.players ≠
                minRoundsSince stats r b.players then
              (minRoundsSince stats r b.players -
                minRoundsSince stats r a.players) * 10
            else a.freshnessScore - b.freshnessScore) =
      ordSign (firstNe
        [descOrd (sumRoundsSince stats r a.players)
          (sumRoundsSince stats r b.players),
          if |a.avgRest - b.avgRest| > 3 / 10 then
            descOrdQ a.avgRest b.avgRest else .eq,
          descOrd (minRoundsSince stats r a.players)
            (minRoundsSince stats r b.players),
          ascOrd a.freshnessScore b.freshnessScore]) := by
  set sA := sumRoundsSince stats r a.players with hsA
  set sB := sumRoundsSince stats r b.players with hsB
  set nA := minRoundsSince stats r a.players with hnA
  set nB := minRoundsSince stats r b.players with hnB
  by_cases hs : sA ≠ sB
  · rw [if_pos hs, ordSign_firstNe_cons_of_ne _ (descOrd_ne_eq hs)]
    exact sign_mul_pos_desc sA sB 100 (by norm_num)
  · rw [if_neg hs, not_not.mp hs, descOrd_self, firstNe_eq_cons]
    by_cases hq : 10 * |b.avgRestNum * a.avgRestDen -
        a.avgRestNum * b.avgRestDen| > 3 * (a.avgRestDen * b.avgRestDen)
    · rw [if_pos hq, if_pos ((avg_threshold_iff a b ha hb).mp hq)]
      have hden : 0 < a.avgRestDen * b.avgRestDen := mul_pos ha hb
      have hne0 : b.avgRestNum * a.avgRestDen -
          a.avgRestNum * b.avgRestDen ≠ 0 := by
        intro h0
        rw [h0] at hq
        simp at hq
        omega
      by_cases hpos : b.avgRestNum * a.avgRestDen -
          a.avgRestNum * b.avgRestDen > 0
      · have hlt : a.avgRest < b.avgRest := (avg_pos_iff a b ha hb).mp hpos
        have hdq : descOrdQ a.avgRest b.avgRest = .gt := by
          unfold descOrdQ
          rw [if_neg (by linarith), if_pos hlt]
        rw [if_pos hpos, ordSign_firstNe_cons_of_ne _
          (by rw [hdq]; exact fun hc => Ordering.noConfusion hc), hdq]
        decide
      · have hneg : 0 < a.avgRestNum * b.avgRestDen -
            b.avgRestNum * a.avgRestDen := by omega
        have hlt : b.avgRest < a.avgRest := (avg_pos_iff b a hb ha).mp hneg
        have hdq : descOrdQ a.avgRest b.avgRest = .lt := by
          unfold descOrdQ
          rw [if_pos hlt]
        rw [if_neg hpos, ordSign_firstNe_cons_of_ne _
          (by rw [hdq]; exact fun hc => Ordering.noConfusion hc), hdq]
        decide
    · rw [if_neg hq,
        if_neg (fun hc => hq ((avg_threshold_iff a b ha hb).mpr hc)),
        firstNe_eq_cons]
      by_cases hn : nA ≠ nB
      · rw [if_pos hn, ordSign_firstNe_cons_of_ne _ (descOrd_ne_eq hn)]
        exact sign_mul_pos_desc nA nB 10 (by norm_num)
      · rw [if_neg hn, not_not.mp hn, descOrd_self, firstNe_eq_cons,
          firstNe_singleton]
        exact sign_sub_asc a.freshnessScore b.freshnessScore

/-- Core sign agreement: for any candidates with positive carried team
sizes, the weighted-sum comparator realises a lexicographic order over the
candidates' carried keys (the level-6 key being whatever `freshnessScore`
the candidates carry). -/
theorem compareCands_sign_lex (stats : StatsMap) (r : Int)
    (a b : Candidate) (ha : 0 < a.avgRestDen) (hb : 0 < b.avgRestDen) :
    Int.sign (compareCands stats r a b) =
      ordSign (specPriorityOrder (maxConsecutiveRestsOf stats.length)
        (maxRoundsSince stats r a.players) (sumRoundsSince stats r a.players)
        a.avgRest (minRoundsSince stats r a.players) a.freshnessScore
        (maxRoundsSince stats r b.players) (sumRoundsSince stats r b.players)
        b.avgRest (minRoundsSince stats r b.players) b.freshnessScore) := by
  have hT12 := maxConsecutiveRestsOf_cases stats.length
  unfold compareCands specPriorityOrder
  dsimp only
  set T := maxConsecutiveRestsOf stats.length with hT
  set mA := maxRoundsSince stats r a.players with hmA
  set mB := maxRoundsSince stats r b.players with hmB
  by_cases h1 : mA ≥ T ∨ mB ≥ T
  · by_cases h1e : mB - mA ≠ 0
    · have hne : mA ≠ mB := by omega
      rw [if_pos ⟨h1, h1e⟩, if_pos h1,
        ordSign_firstNe_cons_of_ne _ (descOrd_ne_eq hne)]
      exact sign_mul_pos_desc mA mB 100000 (by norm_num)
    · have hmeq : mB = mA := by omega
      rw [if_neg (fun hc => h1e hc.2)]
      rw [hmeq] at h1 ⊢
      rw [if_pos h1, descOrd_self, firstNe_eq_cons]
      have h2 : mA ≥ max 1 (T - 1) ∨ mA ≥ max 1 (T - 1) := by
        rcases hT12 with h | h <;> rw [h] at h1 ⊢ <;>
          simp only [or_self] at h1 ⊢ <;> omega
      rw [if_neg (show ¬((mA ≥ max 1 (T - 1) ∨ mA ≥ max 1 (T - 1)) ∧
          mA - mA ≠ 0) from fun hc => hc.2 (by omega)),
        if_pos h2, firstNe_eq_cons]
      exact sign_tail_spec stats r a b ha hb
  · rw [if_neg (fun hc => h1 hc.1), if_neg h1, firstNe_eq_cons]
    by_cases h2 : mA ≥ max 1 (T - 1) ∨ mB ≥ max 1 (T - 1)
    · by_cases h2e : mB - mA ≠ 0
      · have hne : mA ≠ mB := by omega
        rw [if_pos ⟨h2, h2e⟩, if_pos h2,
          ordSign_firstNe_cons_of_ne _ (descOrd_ne_eq hne)]
        exact sign_mul_pos_desc mA mB 10000 (by norm_num)
      · have hmeq : mB = mA := by omega
        rw [if_neg (fun hc => h2e hc.2)]
        rw [hmeq] at h2 ⊢
        rw [if_pos h2, descOrd_self, firstNe_eq_cons]
        exact sign_tail_spec stats r a b ha hb
    · rw [if_neg (fun hc => h2 hc.1), if_neg h2, firstNe_eq_cons]
      exact sign_tail_spec stats r a b ha hb

theorem calculateTeamFreshnessScore_eq_specFalsy (m : MatchObj)
    (tu : NatMap) (tl : IntMap) (r : Int) :
    calculateTeamFreshnessScore m tu tl r = specFreshnessFalsy m tu tl r := rfl

set_option maxRecDepth 100000 in
/-- C6, counterexample: at round 2, with candidates A-vs-B (two teams last
used in round 0) and C-vs-D (one team last used in round 1, one never
used) tied through the first five priority levels, the code's comparator
puts A-vs-B first (its falsy `get(k) || -10` lookup scores a round-0 team
as never used, freshness 198 vs 209), while the claim's freshness formula
(308 vs 209) puts C-vs-D first: the comparator's sign differs from the
claimed priority vector. -/
theorem comparator_freshness_counterexample :
    Int.sign (compareCands cexStats 2 (mkCandidate cexStats cexUsage cexLast 2 cexM1)
        (mkCandidate cexStats cexUsage cexLast 2 cexM2)) ≠
      ordSign (specPriorityOrder (maxConsecutiveRestsOf cexStats.length)
        (maxRoundsSince cexStats 2 (getMatchPlayers cexM1))
        (sumRoundsSince cexStats 2 (getMatchPlayers cexM1))
        (avgRestQ cexStats cexM1)
        (minRoundsSince cexStats 2 (getMatchPlayers cexM1))
        (specFreshness cexM1 cexUsage cexLast 2)
        (maxRoundsSince cexStats 2 (getMatchPlayers cexM2))
        (sumRoundsSince cexStats 2 (getMatchPlayers cexM2))
        (avgRestQ cexStats cexM2)
        (minRoundsSince cexStats 2 (getMatchPlayers cexM2))
        (specFreshness cexM2 cexUsage cexLast 2)) := by
  have hT : maxConsecutiveRestsOf cexStats.length = 1 := by decide
  have hmax1 : maxRoundsSince cexStats 2 (getMatchPlayers cexM1) = 1 := by
    decide
  have hsum1 : sumRoundsSince cexStats 2 (getMatchPlayers cexM1) = 2 := by
    decide
  have hmin1 : minRoundsSince cexStats 2 (getMatchPlayers cexM1) = 1 := by
    decide
  have hf1 : specFreshness cexM1 cexUsage cexLast 2 = 308 := by decide
  have hmax2 : maxRoundsSince cexStats 2 (getMatchPlayers cexM2) = 1 := by
    decide
  have hsum2 : sumRoundsSince cexStats 2 (getMatchPlayers cexM2) = 2 := by
    decide
  have hmin2 : minRoundsSince cexStats 2 (getMatchPlayers cexM2) = 1 := by
    decide
  have hf2 : specFreshness cexM2 cexUsage cexLast 2 = 209 := by decide
  have havg : avgRestQ cexStats cexM1 = avgRestQ cexStats cexM2 := rfl
  have hspec : specPriorityOrder 1 1 2 (avgRestQ cexStats cexM2) 1 308
      1 2 (avgRestQ cexStats cexM2) 1 209 = Ordering.gt := by
    unfold specPriorityOrder
    rw [if_pos (show (1 : Int) ≥ 1 ∨ (1 : Int) ≥ 1 from Or.inl le_rfl),
      if_pos (show (1 : Int) ≥ max 1 (1 - 1) ∨ (1 : Int) ≥ max 1 (1 - 1)
        from Or.inl (by norm_num)),
      descOrd_self, descOrd_self,
      if_neg (show ¬(|avgRestQ cexStats cexM2 - avgRestQ cexStats cexM2| >
        3 / 10) by rw [sub_self, abs_zero]; norm_num),
      show ascOrd 308 209 = Ordering.gt by decide]
    rfl
  rw [hT, hmax1, hsum1, hmin1, hf1, hmax2, hsum2, hmin2, hf2, havg, hspec]
  decide

/-- C6, amended: the sign of the weighted-sum comparator equals the spec's
lexicographic priority vector for every round index, statistics and team
state and every pair of matches, once the level-6 freshness formula reads
each team's last-used round with the code's falsy coalescing
`get(k) || −10` (a stored 0 counts as never used); the other five levels
are unchanged. -/
theorem comparator_matches_spec_amended (stats : StatsMap) (tu : NatMap)
    (tl : IntMap) (r : Int) (m1 m2 : MatchObj)
    (h1 : 0 < (getMatchPlayers m1).length)
    (h2 : 0 < (getMatchPlayers m2).length) :
    Int.sign (compareCands stats r (mkCandidate stats tu tl r m1)
        (mkCandidate stats tu tl r m2)) =
      ordSign (specPriorityOrder (maxConsecutiveRestsOf stats.length)
        (maxRoundsSince stats r (getMatchPlayers m1))
        (sumRoundsSince stats r (getMatchPlayers m1))
        (avgRestQ stats m1)
        (minRoundsSince stats r (getMatchPlayers m1))
        (specFreshnessFalsy m1 tu tl r)
        (maxRoundsSince stats r (getMatchPlayers m2))
        (sumRoundsSince stats r (getMatchPlayers m2))
        (avgRestQ stats m2)
        (minRoundsSince stats r (getMatchPlayers m2))
        (specFreshnessFalsy m2 tu tl r)) := by
  rw [← calculateTeamFreshnessScore_eq_specFalsy m1 tu tl r,
    ← calculateTeamFreshnessScore_eq_specFalsy m2 tu tl r]
  exact compareCands_sign_lex stats r (mkCandidate stats tu tl r m1)
    (mkCandidate stats tu tl r m2)
    (show 0 < ((getMatchPlayers m1).length : Int) by exact_mod_cast h1)
    (show 0 < ((getMatchPlayers m2).length : Int) by exact_mod_cast h2)

set_option maxRecDepth 100000 in
theorem comparator_matches_spec_amended_witness :
    Int.sign (compareCands cexStats 2 (mkCandidate cexStats cexUsage cexLast 2 cexM1)
        (mkCandidate cexStats cexUsage cexLast 2 cexM2)) =
      ordSign (specPriorityOrder (maxConsecutiveRestsOf cexStats.length)
        (maxRoundsSince cexStats 2 (getMatchPlayers cexM1))
        (sumRoundsSince cexStats 2 (getMatchPlayers cexM1))
        (avgRestQ cexStats cexM1)
        (minRoundsSince cexStats 2 (getMatchPlayers cexM1))
        (specFreshnessFalsy cexM1 cexUsage cexLast 2)
        (maxRoundsSince cexStats 2 (getMatchPlayers cexM2))
        (sumRoundsSince cexStats 2 (getMatchPlayers cexM2))
        (avgRestQ cexStats cexM2)
        (minRoundsSince cexStats 2 (getMatchPlayers cexM2))
        (specFreshnessFalsy cexM2 cexUsage cexLast 2)) :=
  comparator_matches_spec_amended cexStats cexUsage cexLast 2 cexM1 cexM2
    (by decide) (by decide)

/-! ### C3 — player-disjointness within every round -/

/-- C3: within every round of a schedule returned by `generateSchedule`,
any two distinct matches (including matches added by the urgency-repair
pass) have disjoint player sets, so every player appears in at most one
match of the round. -/
theorem rounds_matches_pairwise_disjoint (ps : List Player) (c : Int)
    (mt : MatchType) (r : Round)
    (h : r ∈ scheduleRounds (generateSchedule ps c mt)) :
    List.Pairwise PlayersDisjoint r.matches' := by
  rw [scheduleRounds_generateSchedule] at h
  split at h
  · rw [runSchedule_fst] at h
    refine schedLoop_induct (dedupFirst ps) c mt
      (maxConsecutiveRestsOf (dedupFirst ps).length)
      (fun s => ∀ rr ∈ s.rounds, List.Pairwise PlayersDisjoint rr.matches')
      ?_ maxIterations (initState (dedupFirst ps) mt)
      (by intro rr hrr; simp [initState] at hrr) r h
    intro s _ _ _ hP rr hrr
    rw [commitRound_rounds] at hrr
    rcases List.mem_append.mp hrr with hrr | hrr
    · exact hP rr hrr
    · rcases List.mem_singleton.mp hrr with rfl
      exact selectWithRepair_pairwise (dedupFirst ps) c mt _ s
  · simp at h

set_option maxRecDepth 4000000 in
theorem rounds_matches_pairwise_disjoint_witness :
    List.Pairwise PlayersDisjoint exampleRound.matches' :=
  rounds_matches_pairwise_disjoint exampleInput 1 .singles exampleRound
    (by decide)

/-! ### C10 — every emitted round has between 1 and `courts` matches -/

/-- C10: every round emitted by `generateSchedule` contains at least one
match (a round with an empty match list is never produced; the loop breaks
instead) and at most `courts` matches (neither packing pass nor the repair
pass pushes a match once `courts` matches are selected). -/
theorem rounds_length_bounds (ps : List Player) (c : Int) (mt : MatchType)
    (r : Round) (h : r ∈ scheduleRounds (generateSchedule ps c mt)) :
    r.matches' ≠ [] ∧ (r.matches'.length : Int) ≤ c := by
  rw [scheduleRounds_generateSchedule] at h
  split at h
  · next hok =>
    rw [runSchedule_fst] at h
    refine schedLoop_induct (dedupFirst ps) c mt
      (maxConsecutiveRestsOf (dedupFirst ps).length)
      (fun s => ∀ rr ∈ s.rounds,
        rr.matches' ≠ [] ∧ (rr.matches'.length : Int) ≤ c)
      ?_ maxIterations (initState (dedupFirst ps) mt)
      (by intro rr hrr; simp [initState] at hrr) r h
    intro s _ _ hsel hP rr hrr
    rw [commitRound_rounds] at hrr
    rcases List.mem_append.mp hrr with hrr | hrr
    · exact hP rr hrr
    · rcases List.mem_singleton.mp hrr with rfl
      constructor
      · intro hnil
        rw [show (⟨"r" ++ toString (s.roundNumber + 1),
            (selectWithRepair (dedupFirst ps) c mt
              (maxConsecutiveRestsOf (dedupFirst ps).length) s).1,
            (dedupFirst ps).filter (fun p => !(unionPlayers
              (selectWithRepair (dedupFirst ps) c mt
                (maxConsecutiveRestsOf (dedupFirst ps).length) s).1).contains p),
            false⟩ : Round).matches' =
          (selectWithRepair (dedupFirst ps) c mt
            (maxConsecutiveRestsOf (dedupFirst ps).length) s).1 from rfl]
          at hnil
        rw [hnil] at hsel
        simp at hsel
      · exact selectWithRepair_length (dedupFirst ps) c mt _ s (by omega)
  · simp at h

set_option maxRecDepth 4000000 in
theorem rounds_length_bounds_witness :
    exampleRound.matches' ≠ [] ∧
      (exampleRound.matches'.length : Int) ≤ 1 :=
  rounds_length_bounds exampleInput 1 .singles exampleRound (by decide)

/-! ### C4 — each round's matches and resting list partition the roster -/

/-- C4: for every round of a returned schedule, the resting list and the
players of the round's matches partition the deduplicated input roster:
together they cover exactly the roster, and no resting player occurs in any
match of the round. -/
theorem rounds_partition (ps : List Player) (c : Int) (mt : MatchType)
    (r : Round) (h : r ∈ scheduleRounds (generateSchedule ps c mt)) :
    (∀ p, p ∈ dedupFirst ps ↔
      (p ∈ r.resting ∨ ∃ m ∈ r.matches', p ∈ getMatchPlayers m)) ∧
      ∀ p ∈ r.resting, ∀ m ∈ r.matches', p ∉ getMatchPlayers m := by
  rw [scheduleRounds_generateSchedule] at h
  split at h
  · rw [runSchedule_fst] at h
    refine (schedLoop_induct (dedupFirst ps) c mt
      (maxConsecutiveRestsOf (dedupFirst ps).length)
      (fun s => (∀ m ∈ s.remaining, ∀ p ∈ getMatchPlayers m, p ∈ dedupFirst ps) ∧
        ∀ rr ∈ s.rounds,
          (∀ p, p ∈ dedupFirst ps ↔
            (p ∈ rr.resting ∨ ∃ m ∈ rr.matches', p ∈ getMatchPlayers m)) ∧
          ∀ p ∈ rr.resting, ∀ m ∈ rr.matches', p ∉ getMatchPlayers m)
      ?_ maxIterations (initState (dedupFirst ps) mt) ?_).2 r h
    · intro s _ _ _ hP
      have hpool : ∀ m ∈ (selectWithRepair (dedupFirst ps) c mt
          (maxConsecutiveRestsOf (dedupFirst ps).length) s).1,
          ∀ p ∈ getMatchPlayers m, p ∈ dedupFirst ps := by
        intro m hm
        rcases selectWithRepair_mem (dedupFirst ps) c mt _ s m hm with hm' | hm'
        · exact hP.1 m hm'
        · exact generated_players_sub_roster (dedupFirst ps) mt s.nextId m hm'
      constructor
      · intro m hm
        exact hP.1 m (List.mem_filter.mp hm).1
      · intro rr hrr
        rw [commitRound_rounds] at hrr
        rcases List.mem_append.mp hrr with hrr | hrr
        · exact hP.2 rr hrr
        · rcases List.mem_singleton.mp hrr with rfl
          constructor
          · intro p
            constructor
            · intro hp
              by_cases hplay : p ∈ unionPlayers
                (selectWithRepair (dedupFirst ps) c mt
                  (maxConsecutiveRestsOf (dedupFirst ps).length) s).1
              · exact Or.inr ((mem_unionPlayers _ p).mp hplay)
              · refine Or.inl (List.mem_filter.mpr ⟨hp, ?_⟩)
                simpa using hplay
            · rintro (hp | ⟨m, hm, hp⟩)
              · exact (List.mem_filter.mp hp).1
              · exact hpool m hm p hp
          · intro p hp m hm hpm
            have h2 := (List.mem_filter.mp hp).2
            have : p ∉ unionPlayers (selectWithRepair (dedupFirst ps) c mt
                (maxConsecutiveRestsOf (dedupFirst ps).length) s).1 := by
              simpa using h2
            exact this ((mem_unionPlayers _ p).mpr ⟨m, hm, hpm⟩)
    · constructor
      · intro m hm
        exact generated_players_sub_roster (dedupFirst ps) mt 0 m hm
      · intro rr hrr
        simp [initState] at hrr
  · simp at h

set_option maxRecDepth 4000000 in
theorem rounds_partition_witness :
    (∀ p, p ∈ dedupFirst exampleInput ↔
      (p ∈ exampleRound.resting ∨
        ∃ m ∈ exampleRound.matches', p ∈ getMatchPlayers m)) ∧
      ∀ p ∈ exampleRound.resting, ∀ m ∈ exampleRound.matches',
        p ∉ getMatchPlayers m :=
  rounds_partition exampleInput 1 .singles exampleRound (by decide)

set_option maxRecDepth 4000000 in
/-- C1, counterexample: the 5-player one-court singles input is accepted
and its threshold is `T(5) = 1`, yet player A's longest run of consecutive
resting rounds in the returned schedule is 2. (With 3 of 5 players resting
each round, a resting run of 2 is forced by pigeonhole in any schedule of
at least two rounds, so the claimed cap `T(N) = 1` for `N ≤ 7` is
unsatisfiable here.) -/
theorem consecutive_rest_cap_fails :
    scheduleOk (generateSchedule exampleInput 1 .singles) = true ∧
      maxConsecutiveRestsOf (dedupFirst exampleInput).length = 1 ∧
      maxRestRun fiveSinglesRounds "A" = 2 := by
  refine ⟨by decide, by decide, by decide⟩

set_option maxRecDepth 4000000 in
/-- C1, amended: for the 5-player one-court singles input every player's
longest run of consecutive resting rounds is at most 2, i.e. the engine
holds the cap `T(N) + 1`, not `T(N)`, on this roster size. -/
theorem consecutive_rest_cap_two :
    (exampleInput.all (fun p =>
      decide (maxRestRun fiveSinglesRounds p ≤ 2))) = true := by
  decide

set_option maxRecDepth 4000000 in
/-- C8: for five distinct players, one court, singles, every round of the
returned schedule has exactly one match of two players with three players
resting, and the rounds together contain each of the `C(5,2) = 10`
unordered player pairs exactly once. -/
theorem five_singles_coverage :
    fiveSinglesRounds.length = 10 ∧
      (fiveSinglesRounds.all (fun r => r.matches'.length == 1 &&
        r.resting.length == 3 &&
        r.matches'.all (fun m => (getMatchPlayers m).length == 2))) = true ∧
      scheduledKeys.Nodup ∧
      (allPairKeys.all (fun k => scheduledKeys.contains k)) = true := by
  refine ⟨by decide, by decide, by decide, by decide⟩

theorem schedLoop_gate_stops_witness :
    gateTriggers ["A", "B", "C"] 2 gateWitnessState = true ∧
      schedLoop ["A", "B", "C"] 1 .singles 2 10 gateWitnessState =
        gateWitnessState :=
  ⟨by decide, schedLoop_gate_stops ["A", "B", "C"] 1 .singles 2 10
    gateWitnessState (by decide)⟩

end Badminton
